import Mathlib

/-!
# Verification of the tile map editor core

A shallow embedding, in Lean 4, of the data model and algorithms of the
tile-based map editor: the sparse layered tile grid, flood fill, brush
stamping, checkpoint/undo/redo history, the stretchable tile-pattern
expander (`generatePlatformData`), and the procedural level generator
(`generateProceduralLevel`).  Each definition is translated from the
TypeScript source; the theorems at the end of the file settle the spec's
claims about these operations.

Conventions used throughout:
* JS objects keyed by the string `"x,y"` (with `x`, `y` integers) are
  modelled as functions `ℤ × ℤ → Option TileData`; the key encoding is
  injective on integer pairs, so nothing is lost.
* JS `undefined` becomes `Option.none`; strict equality `===` on
  possibly-`undefined` tile ids becomes equality of `Option ℕ`
  (`undefined === undefined` is true, `undefined === n` is false,
  matching `none = none` and `none ≠ some n`).
* `Math.random()` values (reals in `[0,1)`) are modelled as unnormalised
  fractions `num/den`; every floor/comparison the code performs on them
  is computed by exact integer arithmetic.
-/

set_option maxHeartbeats 1000000

namespace MapEditor

/-- `TileData` from `types.ts`: `{ tileId: number; flipX: boolean }`.
Tile ids are non-negative spritesheet indices. -/
structure TileData where
  tileId : ℕ
  flipX : Bool
deriving DecidableEq, Repr

/-- A grid coordinate: the integer pair encoded by a JS object key `"x,y"`
(coordinates may be negative). -/
abbrev Cell := ℤ × ℤ

/-- Sparse per-layer tile storage: `Record<string, TileData>` keyed by `"x,y"`.
Absence of an entry means the cell is empty. -/
abbrev Grid := Cell → Option TileData

/-- The empty sparse mapping `{}`. -/
def emptyGrid : Grid := fun _ => none

/-- JS object assignment `data[key] = t` (creates or overwrites the entry). -/
def updateG (g : Grid) (c : Cell) (t : TileData) : Grid :=
  fun c' => if c' = c then some t else g c'

/-- `data[`x,y`]?.tileId`: the tile id stored at a cell, `none` when empty. -/
def idAt (g : Grid) (c : Cell) : Option ℕ := (g c).map TileData.tileId

/-! ## Flood fill (`floodFill` in `MapEditor.tsx` / part_002)

The revision in part_002 writes `{ tileId: fillTileId, flipX: isFlipped }`
where `isFlipped` is the editor's ambient flip state; the `MapEditor.tsx`
revision writes `flipX: false`.  The ambient flip is taken here as the
parameter `flip`, covering both revisions (`flip := false` for the latter).
-/

/-- The in-bounds test `!(cx < 0 || cx >= mapSize.width || cy < 0 || cy >= mapSize.height)`. -/
def inBounds (W H : ℕ) (c : Cell) : Prop :=
  0 ≤ c.1 ∧ c.1 < (W : ℤ) ∧ 0 ≤ c.2 ∧ c.2 < (H : ℤ)

instance (W H : ℕ) (c : Cell) : Decidable (inBounds W H c) := by
  unfold inBounds; infer_instance

/-- The mutable state of the flood-fill traversal: the layer data being
mutated in place, the `visited` set, and the work stack.  The JS code pops
from the END of the `queue` array; the list below is kept top-first, so the
JS `queue.pop()` is the head and `queue.push(a); queue.push(b)` prepends
`[b, a]`. -/
structure FloodState where
  data : Grid
  visited : Finset Cell
  queue : List Cell

/-- The four pushed neighbours of a popped cell, listed in the order in
which the LIFO stack will pop them (the JS code pushes `(cx+1,cy)`,
`(cx-1,cy)`, `(cx,cy+1)`, `(cx,cy-1)` in that order, so `(cx,cy-1)` is
popped first). -/
def pushList (c : Cell) : List Cell :=
  [(c.1, c.2 - 1), (c.1, c.2 + 1), (c.1 - 1, c.2), (c.1 + 1, c.2)]

/-- The `while (queue.length > 0)` traversal of `floodFill`.  For each
popped cell: skip if visited; skip if out of bounds; skip if the (possibly
already mutated) data does not carry the start id; otherwise mark visited,
write the fill tile and push the four neighbours.

The loop is driven by explicit fuel; `floodFill` below supplies
`5*W*H + 1`, which is enough for the loop to always drain its stack: each
iteration either shortens the stack by one or visits a new in-bounds cell
(net stack growth 3, at most `W*H` such iterations), a bound proved as
part of `floodLoop_post`. -/
def floodLoop (W H : ℕ) (startId : Option ℕ) (fid : ℕ) (flip : Bool) :
    ℕ → FloodState → FloodState
  | 0, st => st
  | fuel + 1, st =>
    match st.queue with
    | [] => st
    | c :: rest =>
      if c ∈ st.visited then
        floodLoop W H startId fid flip fuel { st with queue := rest }
      else if ¬ inBounds W H c then
        floodLoop W H startId fid flip fuel { st with queue := rest }
      else if idAt st.data c ≠ startId then
        floodLoop W H startId fid flip fuel { st with queue := rest }
      else
        floodLoop W H startId fid flip fuel
          { data := updateG st.data c ⟨fid, flip⟩,
            visited := insert c st.visited,
            queue := pushList c ++ rest }

/-- `floodFill(startGridX, startGridY, fillTileId)`: read the start id
(may be `none`), no-op when it strictly equals the fill id, otherwise run
the stack-based traversal seeded with the start cell. -/
def floodFill (W H : ℕ) (g : Grid) (start : Cell) (fid : ℕ) (flip : Bool) : Grid :=
  if idAt g start = some fid then g
  else (floodLoop W H (idAt g start) fid flip (5 * W * H + 1) ⟨g, ∅, [start]⟩).data

/-- 4-connectivity of cells. -/
def adjacent (a b : Cell) : Prop :=
  (b.1 = a.1 ∧ b.2 = a.2 - 1) ∨ (b.1 = a.1 ∧ b.2 = a.2 + 1) ∨
  (b.1 = a.1 - 1 ∧ b.2 = a.2) ∨ (b.1 = a.1 + 1 ∧ b.2 = a.2)

/-- One legal flood step into `b`: `b` is a 4-neighbour landing in bounds on
a cell whose (original) tile id strictly equals the start cell's tile id. -/
def floodStep (W H : ℕ) (g : Grid) (start : Cell) (a b : Cell) : Prop :=
  adjacent a b ∧ inBounds W H b ∧ idAt g b = idAt g start

/-- The maximal 4-connected region, within `[0,W)×[0,H)`, of cells whose
tile id strictly equals the start cell's tile id, containing the start
cell: everything reachable from `start` by legal flood steps. -/
def FloodRegion (W H : ℕ) (g : Grid) (start : Cell) : Set Cell :=
  { c | Relation.ReflTransGen (floodStep W H g start) start c }

lemma mem_pushList_iff_adjacent {a b : Cell} : b ∈ pushList a ↔ adjacent a b := by
  obtain ⟨a1, a2⟩ := a
  obtain ⟨b1, b2⟩ := b
  simp [pushList, adjacent, Prod.ext_iff]

lemma idAt_congr {g1 g2 : Grid} {c : Cell} (h : g1 c = g2 c) : idAt g1 c = idAt g2 c := by
  unfold idAt; rw [h]

/-- All in-bounds cells, as a finite set (used only to measure the loop). -/
def boundsFinset (W H : ℕ) : Finset Cell :=
  Finset.Icc (0 : ℤ) ((W : ℤ) - 1) ×ˢ Finset.Icc (0 : ℤ) ((H : ℤ) - 1)

lemma mem_boundsFinset {W H : ℕ} {c : Cell} : c ∈ boundsFinset W H ↔ inBounds W H c := by
  obtain ⟨x, y⟩ := c
  simp only [boundsFinset, Finset.mem_product, Finset.mem_Icc, inBounds]
  omega

lemma card_boundsFinset (W H : ℕ) : (boundsFinset W H).card = W * H := by
  rw [boundsFinset, Finset.card_product, Int.card_Icc, Int.card_Icc]
  have h1 : ((W : ℤ) - 1 + 1 - 0) = (W : ℤ) := by ring
  have h2 : ((H : ℤ) - 1 + 1 - 0) = (H : ℤ) := by ring
  rw [h1, h2, Int.toNat_natCast, Int.toNat_natCast]

/-- Decreasing measure for the traversal: stack size plus five credits per
in-bounds cell not yet visited. -/
def floodMeasure (W H : ℕ) (st : FloodState) : ℕ :=
  st.queue.length + 5 * (boundsFinset W H \ st.visited).card

/-- Loop invariant of the flood-fill traversal. -/
structure FloodInv (W H : ℕ) (g : Grid) (start : Cell) (fid : ℕ) (flip : Bool)
    (st : FloodState) : Prop where
  visited_reach : ∀ c ∈ st.visited, c ∈ FloodRegion W H g start
  visited_filled : ∀ c ∈ st.visited, st.data c = some ⟨fid, flip⟩
  unvisited_orig : ∀ c, c ∉ st.visited → st.data c = g c
  queue_linked : ∀ c ∈ st.queue, c = start ∨ ∃ v ∈ st.visited, adjacent v c
  start_pending : start ∈ st.visited ∨ start ∈ st.queue
  frontier : ∀ a ∈ st.visited, ∀ b, adjacent a b → inBounds W H b →
    idAt g b = idAt g start → b ∈ st.visited ∨ b ∈ st.queue
  visited_bounds : st.visited ⊆ boundsFinset W H

/-- With any fuel at least the measure, the traversal drains its stack and
preserves the invariant. -/
lemma floodLoop_post (W H : ℕ) (g : Grid) (start : Cell) (fid : ℕ) (flip : Bool)
    (hin : inBounds W H start) :
    ∀ fuel st, FloodInv W H g start fid flip st →
      floodMeasure W H st ≤ fuel →
      (floodLoop W H (idAt g start) fid flip fuel st).queue = [] ∧
      FloodInv W H g start fid flip (floodLoop W H (idAt g start) fid flip fuel st) := by
  intro fuel
  induction fuel with
  | zero =>
    intro st hinv hm
    have hq : st.queue = [] := by
      have := Nat.le_zero.mp hm
      rcases hq : st.queue with _ | ⟨c, rest⟩
      · rfl
      · rw [floodMeasure, hq] at this; simp at this
    have step : floodLoop W H (idAt g start) fid flip 0 st = st := rfl
    rw [step]
    exact ⟨hq, hinv⟩
  | succ fuel ih =>
    intro st hinv hm
    rcases hq : st.queue with _ | ⟨c, rest⟩
    · have step : floodLoop W H (idAt g start) fid flip (fuel + 1) st = st := by
        simp only [floodLoop, hq]
      rw [step]
      exact ⟨hq, hinv⟩
    · have hlen : st.queue.length = rest.length + 1 := by rw [hq]; simp
      by_cases hv : c ∈ st.visited
      · -- already visited: drop it
        have step : floodLoop W H (idAt g start) fid flip (fuel + 1) st =
            floodLoop W H (idAt g start) fid flip fuel { st with queue := rest } := by
          simp only [floodLoop, hq, if_pos hv]
        rw [step]
        apply ih
        · refine ⟨hinv.visited_reach, hinv.visited_filled, hinv.unvisited_orig, ?_, ?_, ?_,
            hinv.visited_bounds⟩
          · intro d hd
            exact hinv.queue_linked d (by rw [hq]; exact List.mem_cons_of_mem _ hd)
          · rcases hinv.start_pending with h | h
            · exact Or.inl h
            · rw [hq] at h
              rcases List.mem_cons.mp h with h | h
              · exact Or.inl (h ▸ hv)
              · exact Or.inr h
          · intro a ha b hab hb hbid
            rcases hinv.frontier a ha b hab hb hbid with h | h
            · exact Or.inl h
            · rw [hq] at h
              rcases List.mem_cons.mp h with h | h
              · exact Or.inl (h ▸ hv)
              · exact Or.inr h
        · have : floodMeasure W H { st with queue := rest } + 1 = floodMeasure W H st := by
            simp [floodMeasure, hlen]; ring
          omega
      · by_cases hb : inBounds W H c
        · by_cases hmatch : idAt st.data c = idAt g start
          · -- fill this cell
            have step : floodLoop W H (idAt g start) fid flip (fuel + 1) st =
                floodLoop W H (idAt g start) fid flip fuel
                  { data := updateG st.data c ⟨fid, flip⟩,
                    visited := insert c st.visited,
                    queue := pushList c ++ rest } := by
              simp only [floodLoop, hq, if_neg hv]
              rw [if_neg (not_not_intro hb), if_neg (not_not_intro hmatch)]
            have hgc : idAt g c = idAt g start :=
              (idAt_congr (hinv.unvisited_orig c hv)).symm.trans hmatch
            have hcreg : c ∈ FloodRegion W H g start := by
              have hcq : c ∈ st.queue := by rw [hq]; exact List.mem_cons_self c rest
              rcases hinv.queue_linked c hcq with h | ⟨v, hvv, hadj⟩
              · rw [h]; exact Relation.ReflTransGen.refl
              · exact Relation.ReflTransGen.tail (hinv.visited_reach v hvv) ⟨hadj, hb, hgc⟩
            rw [step]
            apply ih
            · constructor
              · intro d hd
                rcases Finset.mem_insert.mp hd with h | h
                · exact h ▸ hcreg
                · exact hinv.visited_reach d h
              · intro d hd
                rcases Finset.mem_insert.mp hd with h | h
                · subst h; simp [updateG]
                · have hne : d ≠ c := fun he => hv (he ▸ h)
                  show updateG st.data c ⟨fid, flip⟩ d = some ⟨fid, flip⟩
                  simp only [updateG, if_neg hne]
                  exact hinv.visited_filled d h
              · intro d hd
                have hd1 : d ≠ c := fun he => hd (he ▸ Finset.mem_insert_self c st.visited)
                have hd2 : d ∉ st.visited := fun h => hd (Finset.mem_insert_of_mem h)
                show updateG st.data c ⟨fid, flip⟩ d = g d
                simp only [updateG, if_neg hd1]
                exact hinv.unvisited_orig d hd2
              · intro d hd
                rcases List.mem_append.mp hd with h | h
                · exact Or.inr ⟨c, Finset.mem_insert_self c st.visited,
                    mem_pushList_iff_adjacent.mp h⟩
                · rcases hinv.queue_linked d (by rw [hq]; exact List.mem_cons_of_mem _ h)
                    with h' | ⟨v, hvv, hadj⟩
                  · exact Or.inl h'
                  · exact Or.inr ⟨v, Finset.mem_insert_of_mem hvv, hadj⟩
              · rcases hinv.start_pending with h | h
                · exact Or.inl (Finset.mem_insert_of_mem h)
                · rw [hq] at h
                  rcases List.mem_cons.mp h with h | h
                  · rw [h]; exact Or.inl (Finset.mem_insert_self c st.visited)
                  · exact Or.inr (List.mem_append.mpr (Or.inr h))
              · intro a ha b hab hbb hbid
                rcases Finset.mem_insert.mp ha with h | h
                · subst h
                  exact Or.inr (List.mem_append.mpr (Or.inl
                    (mem_pushList_iff_adjacent.mpr hab)))
                · rcases hinv.frontier a h b hab hbb hbid with h' | h'
                  · exact Or.inl (Finset.mem_insert_of_mem h')
                  · rw [hq] at h'
                    rcases List.mem_cons.mp h' with h' | h'
                    · rw [h']; exact Or.inl (Finset.mem_insert_self c st.visited)
                    · exact Or.inr (List.mem_append.mpr (Or.inr h'))
              · intro d hd
                rcases Finset.mem_insert.mp hd with h | h
                · exact h ▸ mem_boundsFinset.mpr hb
                · exact hinv.visited_bounds h
            · -- measure decreases by 2
              have hcB : c ∈ boundsFinset W H \ st.visited :=
                Finset.mem_sdiff.mpr ⟨mem_boundsFinset.mpr hb, hv⟩
              have hcard : (boundsFinset W H \ insert c st.visited).card =
                  (boundsFinset W H \ st.visited).card - 1 := by
                rw [Finset.sdiff_insert, Finset.card_erase_of_mem hcB]
              have hpos : 1 ≤ (boundsFinset W H \ st.visited).card :=
                Finset.card_pos.mpr ⟨c, hcB⟩
              have hm' : floodMeasure W H st = rest.length + 1 +
                  5 * (boundsFinset W H \ st.visited).card := by
                simp [floodMeasure, hlen]
              have hnew : floodMeasure W H
                  { data := updateG st.data c ⟨fid, flip⟩,
                    visited := insert c st.visited,
                    queue := pushList c ++ rest } =
                  4 + rest.length + 5 * ((boundsFinset W H \ st.visited).card - 1) := by
                show (pushList c ++ rest).length + 5 * _ = _
                rw [hcard, List.length_append]
                simp [pushList]
              omega
          · -- id mismatch: drop it
            have step : floodLoop W H (idAt g start) fid flip (fuel + 1) st =
                floodLoop W H (idAt g start) fid flip fuel { st with queue := rest } := by
              simp only [floodLoop, hq, if_neg hv]
              rw [if_neg (not_not_intro hb), if_pos hmatch]
            have hcnotstart : c ≠ start := by
              intro he
              apply hmatch
              subst he
              exact idAt_congr (hinv.unvisited_orig c hv)
            rw [step]
            apply ih
            · refine ⟨hinv.visited_reach, hinv.visited_filled, hinv.unvisited_orig, ?_, ?_, ?_,
                hinv.visited_bounds⟩
              · intro d hd
                exact hinv.queue_linked d (by rw [hq]; exact List.mem_cons_of_mem _ hd)
              · rcases hinv.start_pending with h | h
                · exact Or.inl h
                · rw [hq] at h
                  rcases List.mem_cons.mp h with h | h
                  · exact absurd h.symm hcnotstart
                  · exact Or.inr h
              · intro a ha b hab hbb hbid
                rcases hinv.frontier a ha b hab hbb hbid with h | h
                · exact Or.inl h
                · rw [hq] at h
                  rcases List.mem_cons.mp h with h | h
                  · exfalso
                    apply hmatch
                    rw [← h]
                    exact (idAt_congr (hinv.unvisited_orig b (by rw [h]; exact hv))).trans hbid
                  · exact Or.inr h
            · have : floodMeasure W H { st with queue := rest } + 1 = floodMeasure W H st := by
                simp [floodMeasure, hlen]; ring
              omega
        · -- out of bounds: drop it
          have step : floodLoop W H (idAt g start) fid flip (fuel + 1) st =
              floodLoop W H (idAt g start) fid flip fuel { st with queue := rest } := by
            simp only [floodLoop, hq, if_neg hv]
            rw [if_pos hb]
          rw [step]
          apply ih
          · refine ⟨hinv.visited_reach, hinv.visited_filled, hinv.unvisited_orig, ?_, ?_, ?_,
              hinv.visited_bounds⟩
            · intro d hd
              exact hinv.queue_linked d (by rw [hq]; exact List.mem_cons_of_mem _ hd)
            · rcases hinv.start_pending with h | h
              · exact Or.inl h
              · rw [hq] at h
                rcases List.mem_cons.mp h with h | h
                · exact absurd (h ▸ hin) hb
                · exact Or.inr h
            · intro a ha b hab hbb hbid
              rcases hinv.frontier a ha b hab hbb hbid with h | h
              · exact Or.inl h
              · rw [hq] at h
                rcases List.mem_cons.mp h with h | h
                · exact absurd (h ▸ hbb) hb
                · exact Or.inr h
          · have : floodMeasure W H { st with queue := rest } + 1 = floodMeasure W H st := by
              simp [floodMeasure, hlen]; ring
            omega

/-- Once the stack is drained, the visited set is exactly the flood region. -/
lemma region_subset_visited (W H : ℕ) (g : Grid) (start : Cell) (fid : ℕ) (flip : Bool)
    (st : FloodState) (hq : st.queue = [])
    (hinv : FloodInv W H g start fid flip st) :
    ∀ c ∈ FloodRegion W H g start, c ∈ st.visited := by
  intro c hc
  induction hc with
  | refl =>
    rcases hinv.start_pending with h | h
    · exact h
    · rw [hq] at h; cases h
  | tail _ hstep ih =>
    rename_i b c' _
    rcases hinv.frontier b ih c' hstep.1 hstep.2.1 hstep.2.2 with h | h
    · exact h
    · rw [hq] at h; cases h

lemma floodLoop_nil (W H : ℕ) (sid : Option ℕ) (fid : ℕ) (flip : Bool)
    (fuel : ℕ) (st : FloodState) (hq : st.queue = []) :
    floodLoop W H sid fid flip fuel st = st := by
  cases fuel with
  | zero => rfl
  | succ n => simp only [floodLoop, hq]

/-- **C1.** For every sparse layer grid, map bounds, start cell and fill id:
if the tile id at the start cell (`none` when empty) strictly equals the
fill id, `floodFill` leaves the grid unchanged; otherwise it writes the
fill tile to exactly the cells of the maximal 4-connected region, within
`[0,W)×[0,H)`, of cells whose tile id strictly equals the start cell's tile
id (an empty cell matches only an empty cell), and every cell outside that
region keeps its prior content. -/
theorem floodFill_fills_exactly_region (W H : ℕ) (g : Grid) (start : Cell)
    (fid : ℕ) (flip : Bool) (hin : inBounds W H start) :
    (idAt g start = some fid → ∀ c, floodFill W H g start fid flip c = g c) ∧
    (idAt g start ≠ some fid →
      (∀ c ∈ FloodRegion W H g start,
        floodFill W H g start fid flip c = some ⟨fid, flip⟩) ∧
      (∀ c ∉ FloodRegion W H g start,
        floodFill W H g start fid flip c = g c)) := by
  constructor
  · intro hEq c
    unfold floodFill
    rw [if_pos hEq]
  · intro hne
    have hfill : floodFill W H g start fid flip =
        (floodLoop W H (idAt g start) fid flip (5 * W * H + 1) ⟨g, ∅, [start]⟩).data := by
      unfold floodFill; rw [if_neg hne]
    have hinv0 : FloodInv W H g start fid flip ⟨g, ∅, [start]⟩ := by
      constructor
      · intro c hc; exact absurd hc (Finset.not_mem_empty c)
      · intro c hc; exact absurd hc (Finset.not_mem_empty c)
      · intro c _; rfl
      · intro c hc; exact Or.inl (List.mem_singleton.mp hc)
      · exact Or.inr (List.mem_singleton_self start)
      · intro a ha; exact absurd ha (Finset.not_mem_empty a)
      · exact Finset.empty_subset _
    have hm0 : floodMeasure W H ⟨g, ∅, [start]⟩ ≤ 5 * W * H + 1 := by
      show [start].length + 5 * (boundsFinset W H \ ∅).card ≤ 5 * W * H + 1
      rw [Finset.sdiff_empty, card_boundsFinset, Nat.mul_assoc, List.length_singleton]
      omega
    obtain ⟨hq', hinv'⟩ :=
      floodLoop_post W H g start fid flip hin (5 * W * H + 1) ⟨g, ∅, [start]⟩ hinv0 hm0
    constructor
    · intro c hc
      rw [hfill]
      exact hinv'.visited_filled c
        (region_subset_visited W H g start fid flip _ hq' hinv' c hc)
    · intro c hc
      rw [hfill]
      apply hinv'.unvisited_orig
      intro hcv
      exact hc (hinv'.visited_reach c hcv)

/-- Witness for C1: flood-filling the empty 2×2 grid from the in-bounds
start `(0,0)` with tile id 9. -/
theorem floodFill_fills_exactly_region_witness :
    inBounds 2 2 ((0 : ℤ), (0 : ℤ)) ∧
    ((idAt emptyGrid ((0 : ℤ), (0 : ℤ)) = some 9 →
        ∀ c, floodFill 2 2 emptyGrid ((0 : ℤ), (0 : ℤ)) 9 false c = emptyGrid c) ∧
     (idAt emptyGrid ((0 : ℤ), (0 : ℤ)) ≠ some 9 →
       (∀ c ∈ FloodRegion 2 2 emptyGrid ((0 : ℤ), (0 : ℤ)),
         floodFill 2 2 emptyGrid ((0 : ℤ), (0 : ℤ)) 9 false c = some ⟨9, false⟩) ∧
       (∀ c ∉ FloodRegion 2 2 emptyGrid ((0 : ℤ), (0 : ℤ)),
         floodFill 2 2 emptyGrid ((0 : ℤ), (0 : ℤ)) 9 false c = emptyGrid c))) :=
  ⟨by decide,
   floodFill_fills_exactly_region 2 2 emptyGrid ((0 : ℤ), (0 : ℤ)) 9 false (by decide)⟩

/-- A concrete grid holding one entry at the out-of-bounds key `(5,5)`. -/
def gridWithStray : Grid := updateG emptyGrid ((5 : ℤ), (5 : ℤ)) ⟨3, false⟩

/-- **C10.** For every start cell lying outside `[0,W)×[0,H)` and every fill
id, `floodFill` leaves every cell of the layer unchanged — even when the
sparse data holds entries at out-of-bounds coordinate keys — provided the
value stored at the start key does not strictly equal the fill id. -/
theorem floodFill_oob_start_noop (W H : ℕ) (g : Grid) (start : Cell)
    (fid : ℕ) (flip : Bool) (hout : ¬ inBounds W H start)
    (hne : idAt g start ≠ some fid) :
    ∀ c, floodFill W H g start fid flip c = g c := by
  intro c
  unfold floodFill
  rw [if_neg hne]
  have h1 : floodLoop W H (idAt g start) fid flip (5 * W * H + 1) ⟨g, ∅, [start]⟩ =
      floodLoop W H (idAt g start) fid flip (5 * W * H) ⟨g, ∅, []⟩ := by
    simp only [floodLoop]
    rw [if_neg (Finset.not_mem_empty start), if_pos hout]
  rw [h1, floodLoop_nil W H (idAt g start) fid flip (5 * W * H) ⟨g, ∅, []⟩ rfl]

/-- Witness for C10: start `(5,5)` outside a 1×1 map whose sparse data
already holds a stray entry at that same out-of-bounds key. -/
theorem floodFill_oob_start_noop_witness :
    ¬ inBounds 1 1 ((5 : ℤ), (5 : ℤ)) ∧
    idAt gridWithStray ((5 : ℤ), (5 : ℤ)) ≠ some 9 ∧
    ∀ c, floodFill 1 1 gridWithStray ((5 : ℤ), (5 : ℤ)) 9 true c = gridWithStray c :=
  ⟨by decide, by decide,
   floodFill_oob_start_noop 1 1 gridWithStray ((5 : ℤ), (5 : ℤ)) 9 true
     (by decide) (by decide)⟩

/-! ## Pattern expander (`generatePlatformData`, part_008 / `constants/tileGroups.ts`)

The embedding follows the revision in part_008, the one the spec
describes: it includes the fallback of middle columns to the `single`
column when `middle` is empty (an older `tileGroups.ts` revision lacks
that branch).  The produced `Record<string, TileData>` is modelled as an
association list in JS insertion order; each key is inserted at most
once, so `lookupPD` (first match) is the record lookup.
-/

inductive Role
  | terrain
  | decoration
  | terrainDecoration
deriving DecidableEq, Repr

inductive VAlign
  | top
  | bottom
deriving DecidableEq, Repr

/-- `TileGroup` from `types.ts` (the revision carrying the generation
fields).  `id`, `name` and `allowInGeneration` play no part in the
algorithms verified here and are omitted; `density`,
`verticalAlignments` and the legacy `verticalAlignment` are optional
exactly as in the source. -/
structure TileGroup where
  left : List ℕ
  middle : List (List ℕ)
  right : List ℕ
  single : List ℕ
  height : ℕ
  preview : List ℕ
  role : Role
  canResize : Bool
  canFlip : Bool
  density : Option ℕ := none
  verticalAlignments : Option (List VAlign) := none
  verticalAlignment : Option VAlign := none
deriving DecidableEq, Repr

/-- `const h = group.height || 1`. -/
def hEff (group : TileGroup) : ℕ := if group.height = 0 then 1 else group.height

/-- The `addColumn` helper: for each `y` in `[0,h)` read
`colTiles[y % colTiles.length]` and emit `{ tileId, flipX: false }` unless
the read is `undefined` — which happens exactly when `colTiles` is empty
(the JS index is then `NaN`). -/
def addColumn (h : ℕ) (x : ℕ) (colTiles : List ℕ) : List ((ℕ × ℕ) × TileData) :=
  (List.range h).filterMap fun y =>
    (colTiles[y % colTiles.length]?).map fun tileId => ((x, y), ⟨tileId, false⟩)

/-- The middle-column selector of part_008, cycling through `middle` and
falling back to `single` when `middle` is empty. -/
def middleColOf (group : TileGroup) (x : ℕ) : List ℕ :=
  if 0 < group.middle.length
  then group.middle.getD ((x - 1) % group.middle.length) []
  else group.single

/-- `generatePlatformData(width, group)` on a natural-number width
(`generatePlatformDataZ` below adds the JS `width <= 0` guard): `single`
column at width 1, otherwise left cap, cycled middle columns, right cap. -/
def generatePlatformData (width : ℕ) (group : TileGroup) : List ((ℕ × ℕ) × TileData) :=
  if width = 0 then []
  else if width = 1 then addColumn (hEff group) 0 group.single
  else
    addColumn (hEff group) 0 group.left
      ++ ((List.range (width - 2)).flatMap fun i =>
            addColumn (hEff group) (i + 1) (middleColOf group (i + 1)))
      ++ addColumn (hEff group) (width - 1) group.right

/-- `generatePlatformData` on a JS number width: `if (width <= 0) return {}`. -/
def generatePlatformDataZ (width : ℤ) (group : TileGroup) : List ((ℕ × ℕ) × TileData) :=
  if width ≤ 0 then [] else generatePlatformData width.toNat group

/-- Record lookup in the produced pattern data. -/
def lookupPD (l : List ((ℕ × ℕ) × TileData)) (c : ℕ × ℕ) : Option TileData :=
  (l.find? fun e => e.1 == c).map Prod.snd

lemma lookupPD_append (l1 l2 : List ((ℕ × ℕ) × TileData)) (c : ℕ × ℕ) :
    lookupPD (l1 ++ l2) c = (lookupPD l1 c).or (lookupPD l2 c) := by
  unfold lookupPD
  rw [List.find?_append]
  cases List.find? (fun e => e.1 == c) l1 <;> simp

lemma lookupPD_addColumn_ne (h x : ℕ) (col : List ℕ) (c : ℕ × ℕ) (hx : c.1 ≠ x) :
    lookupPD (addColumn h x col) c = none := by
  unfold lookupPD
  rw [List.find?_eq_none.mpr]
  · rfl
  · intro e he
    rcases List.mem_filterMap.mp he with ⟨y, _, hy⟩
    rcases Option.map_eq_some'.mp hy with ⟨t, _, ht⟩
    simp only [← ht, beq_iff_eq]
    intro hcontr
    exact hx (by rw [← hcontr])

lemma lookupPD_addColumn_ge (h x : ℕ) (col : List ℕ) (c : ℕ × ℕ) (hy : h ≤ c.2) :
    lookupPD (addColumn h x col) c = none := by
  unfold lookupPD
  rw [List.find?_eq_none.mpr]
  · rfl
  · intro e he
    rcases List.mem_filterMap.mp he with ⟨y, hyr, hmap⟩
    rcases Option.map_eq_some'.mp hmap with ⟨t, _, ht⟩
    have hylt : y < h := List.mem_range.mp hyr
    simp only [← ht, beq_iff_eq]
    intro hcontr
    rw [← hcontr] at hy
    omega

lemma addColumn_nil (h x : ℕ) : addColumn h x [] = [] := by
  simp [addColumn]

lemma lookupPD_addColumn_hit (h x : ℕ) (col : List ℕ) (y : ℕ) (hy : y < h)
    (hne : col ≠ []) :
    lookupPD (addColumn h x col) (x, y) =
      (col[y % col.length]?).map fun t => (⟨t, false⟩ : TileData) := by
  have hlp : y % col.length < col.length := Nat.mod_lt _ (List.length_pos.mpr hne)
  induction h with
  | zero => omega
  | succ n ih =>
    have hsplit : addColumn (n + 1) x col =
        addColumn n x col ++
          ((col[n % col.length]?).map
            (fun tileId => ((x, n), (⟨tileId, false⟩ : TileData)))).toList := by
      unfold addColumn
      rw [List.range_succ, List.filterMap_append]
      rcases hc : col[n % col.length]? with _ | v <;> simp [hc]
    rw [hsplit, lookupPD_append]
    rcases Nat.lt_or_ge y n with hlt | hge
    · rw [ih hlt]
      rcases hv : col[y % col.length]? with _ | v
      · exact absurd (List.getElem?_eq_none_iff.mp hv) (by omega)
      · simp
    · have hyn : y = n := by omega
      rw [lookupPD_addColumn_ge n x col (x, y) (by omega)]
      rcases hv : col[y % col.length]? with _ | v
      · exact absurd (List.getElem?_eq_none_iff.mp hv) (by omega)
      · rw [hyn] at hv ⊢
        simp [lookupPD, hv]

lemma lookupPD_nil (c : ℕ × ℕ) : lookupPD [] c = none := rfl

lemma lookupPD_middle_cols (group : TileGroup) (n : ℕ) (c : ℕ × ℕ) :
    lookupPD ((List.range n).flatMap fun i =>
        addColumn (hEff group) (i + 1) (middleColOf group (i + 1))) c =
      if 1 ≤ c.1 ∧ c.1 ≤ n then
        lookupPD (addColumn (hEff group) c.1 (middleColOf group c.1)) c
      else none := by
  induction n with
  | zero =>
    rw [if_neg (by omega)]
    rfl
  | succ n ih =>
    rw [List.range_succ, List.flatMap_append, lookupPD_append, ih]
    have hsing : (List.flatMap [n] fun i =>
        addColumn (hEff group) (i + 1) (middleColOf group (i + 1))) =
        addColumn (hEff group) (n + 1) (middleColOf group (n + 1)) := by
      simp
    rw [hsing]
    by_cases h1 : 1 ≤ c.1 ∧ c.1 ≤ n
    · rw [if_pos h1, if_pos (by omega : 1 ≤ c.1 ∧ c.1 ≤ n + 1),
        lookupPD_addColumn_ne _ (n + 1) _ c (by omega)]
      cases lookupPD (addColumn (hEff group) c.1 (middleColOf group c.1)) c <;> simp
    · rw [if_neg h1]
      by_cases h2 : c.1 = n + 1
      · rw [if_pos (by omega : 1 ≤ c.1 ∧ c.1 ≤ n + 1)]
        rw [h2]
        simp
      · rw [if_neg (by omega), lookupPD_addColumn_ne _ (n + 1) _ c h2]
        simp

lemma lookupPD_generatePlatformData (width : ℕ) (group : TileGroup) (c : ℕ × ℕ)
    (h2 : 2 ≤ width) :
    lookupPD (generatePlatformData width group) c =
      if c.1 = 0 then lookupPD (addColumn (hEff group) 0 group.left) c
      else if c.1 = width - 1 then
        lookupPD (addColumn (hEff group) (width - 1) group.right) c
      else if 1 ≤ c.1 ∧ c.1 ≤ width - 2 then
        lookupPD (addColumn (hEff group) c.1 (middleColOf group c.1)) c
      else none := by
  have hgen : generatePlatformData width group =
      addColumn (hEff group) 0 group.left
        ++ ((List.range (width - 2)).flatMap fun i =>
              addColumn (hEff group) (i + 1) (middleColOf group (i + 1)))
        ++ addColumn (hEff group) (width - 1) group.right := by
    unfold generatePlatformData
    rw [if_neg (by omega), if_neg (by omega)]
  rw [hgen, lookupPD_append, lookupPD_append, lookupPD_middle_cols]
  by_cases hc0 : c.1 = 0
  · rw [if_pos hc0, if_neg (by omega : ¬ (1 ≤ c.1 ∧ c.1 ≤ width - 2)),
      lookupPD_addColumn_ne _ (width - 1) _ c (by omega)]
    cases lookupPD (addColumn (hEff group) 0 group.left) c <;> simp
  · rw [if_neg hc0, lookupPD_addColumn_ne _ 0 _ c hc0]
    by_cases hcr : c.1 = width - 1
    · rw [if_pos hcr, if_neg (by omega : ¬ (1 ≤ c.1 ∧ c.1 ≤ width - 2))]
      simp
    · rw [if_neg hcr]
      by_cases hmid : 1 ≤ c.1 ∧ c.1 ≤ width - 2
      · rw [if_pos hmid, lookupPD_addColumn_ne _ (width - 1) _ c hcr]
        cases lookupPD (addColumn (hEff group) c.1 (middleColOf group c.1)) c <;> simp
      · rw [if_neg hmid, lookupPD_addColumn_ne _ (width - 1) _ c hcr]
        simp

lemma hEff_of_pos {group : TileGroup} (h : 0 < group.height) :
    hEff group = group.height := by
  unfold hEff
  rw [if_neg (by omega)]

/-- Lookup in a single column placed at `x0`, fully described. -/
lemma lookupPD_addColumn_full (h x0 : ℕ) (col : List ℕ) (x y : ℕ) :
    lookupPD (addColumn h x0 col) (x, y) =
      if x = x0 ∧ y < h
      then (col[y % col.length]?).map fun t => (⟨t, false⟩ : TileData)
      else none := by
  by_cases hx : x = x0
  · subst hx
    by_cases hy : y < h
    · rcases hcol : col with _ | ⟨t0, ts⟩
      · rw [addColumn_nil, lookupPD_nil, if_pos ⟨rfl, hy⟩]
        simp
      · rw [← hcol, lookupPD_addColumn_hit h x col y hy (by rw [hcol]; simp),
          if_pos ⟨rfl, hy⟩]
    · rw [lookupPD_addColumn_ge h x col (x, y) (by omega), if_neg (by omega)]
  · rw [lookupPD_addColumn_ne h x0 col (x, y) hx, if_neg (by omega)]

/-- The concrete 1-wide, height-3 group of the spec's scenario:
`single = [5]`. -/
def exampleSingleGroup : TileGroup :=
  { left := [], middle := [], right := [], single := [5], height := 3,
    preview := [5], role := .decoration, canResize := false, canFlip := false }

/-- The concrete `left=[1], middle=[[2]], right=[3]`, height-1 group of the
spec's scenario. -/
def exampleLMRGroup : TileGroup :=
  { left := [1], middle := [[2]], right := [3], single := [2], height := 1,
    preview := [1, 2, 3], role := .terrain, canResize := true, canFlip := false }

/-- **C4.** Expanding a `TileGroup` at width 1 emits exactly the `single`
column (row `y` of column 0 gets `single[y % single.length]` for every
`y < height`) and nothing else; at width 2 it emits exactly `left` as
column 0 and `right` as column 1, never reading `middle`.  In particular
`single=[5]`, height 3 at width 1 yields `{"0,0":5,"0,1":5,"0,2":5}`, and
`left=[1], middle=[[2]], right=[3]`, height 1 at width 3 yields
`{"0,0":1,"1,0":2,"2,0":3}`, all emitted tiles having `flipX=false`. -/
theorem pattern_width1_single_width2_caps :
    (∀ group : TileGroup, 0 < group.height → group.single ≠ [] → ∀ x y : ℕ,
      lookupPD (generatePlatformData 1 group) (x, y) =
        if x = 0 ∧ y < group.height
        then (group.single[y % group.single.length]?).map fun t => (⟨t, false⟩ : TileData)
        else none) ∧
    (∀ group : TileGroup, 0 < group.height → ∀ x y : ℕ,
      lookupPD (generatePlatformData 2 group) (x, y) =
        if x = 0 ∧ y < group.height
        then (group.left[y % group.left.length]?).map fun t => (⟨t, false⟩ : TileData)
        else if x = 1 ∧ y < group.height
        then (group.right[y % group.right.length]?).map fun t => (⟨t, false⟩ : TileData)
        else none) ∧
    (∀ (group : TileGroup) (m : List (List ℕ)),
      generatePlatformData 2 { group with middle := m } =
        generatePlatformData 2 group) ∧
    generatePlatformData 1 exampleSingleGroup =
      [((0, 0), ⟨5, false⟩), ((0, 1), ⟨5, false⟩), ((0, 2), ⟨5, false⟩)] ∧
    generatePlatformData 3 exampleLMRGroup =
      [((0, 0), ⟨1, false⟩), ((1, 0), ⟨2, false⟩), ((2, 0), ⟨3, false⟩)] := by
  refine ⟨?_, ?_, ?_, by decide, by decide⟩
  · intro group hh _ x y
    have h1 : generatePlatformData 1 group = addColumn (hEff group) 0 group.single := by
      unfold generatePlatformData
      rw [if_neg (by omega), if_pos rfl]
    rw [h1, lookupPD_addColumn_full, hEff_of_pos hh]
  · intro group hh x y
    rw [lookupPD_generatePlatformData 2 group (x, y) (by omega)]
    by_cases hx0 : x = 0
    · subst hx0
      rw [if_pos rfl, lookupPD_addColumn_full, hEff_of_pos hh]
      by_cases hy : y < group.height
      · rw [if_pos ⟨rfl, hy⟩, if_pos ⟨rfl, hy⟩]
      · rw [if_neg (by omega), if_neg (by omega), if_neg (by omega)]
    · rw [if_neg hx0]
      by_cases hx1 : x = 1
      · rw [if_pos (by omega : x = 2 - 1), lookupPD_addColumn_full, hEff_of_pos hh]
        subst hx1
        by_cases hy : y < group.height <;> simp [hy]
      · rw [if_neg (by omega : ¬ x = 2 - 1), if_neg (by omega), if_neg (by omega),
          if_neg (by omega)]
  · intro group m
    rfl

/-- Witness for C4: the width-1 branch applied to the concrete
`single=[5]`, height-3 group. -/
theorem pattern_width1_single_width2_caps_witness :
    (0 < exampleSingleGroup.height ∧ exampleSingleGroup.single ≠ []) ∧
    lookupPD (generatePlatformData 1 exampleSingleGroup) (0, 1) =
      (if 0 = 0 ∧ 1 < exampleSingleGroup.height
       then (exampleSingleGroup.single[1 % exampleSingleGroup.single.length]?).map
         fun t => (⟨t, false⟩ : TileData)
       else none) :=
  ⟨⟨by decide, by decide⟩,
   pattern_width1_single_width2_caps.1 exampleSingleGroup (by decide) (by decide) 0 1⟩

/-- A concrete group with no `middle` columns (captured from a 1-wide
source), used to witness the middle-to-single fallback. -/
def exampleNoMiddleGroup : TileGroup :=
  { left := [4], middle := [], right := [6], single := [7], height := 1,
    preview := [4, 7, 6], role := .terrain, canResize := true, canFlip := false }

/-- **C8.** Pattern expansion is total on degenerate input: width `≤ 0`
yields the empty mapping; an empty column array contributes no entries
(the cells are simply omitted); and for width `≥ 3` with an empty `middle`
array, each middle column falls back to the `single` column — its cells
equal those of the width-1 expansion — instead of failing. -/
theorem pattern_degenerate_total :
    (∀ (group : TileGroup) (w : ℤ), w ≤ 0 → generatePlatformDataZ w group = []) ∧
    (∀ (h x : ℕ), addColumn h x [] = []) ∧
    (∀ (group : TileGroup) (w : ℕ), 2 ≤ w → group.left = [] →
      ∀ y : ℕ, lookupPD (generatePlatformData w group) (0, y) = none) ∧
    (∀ (group : TileGroup) (w x : ℕ), group.middle = [] → 3 ≤ w →
      1 ≤ x → x ≤ w - 2 → ∀ y : ℕ,
      lookupPD (generatePlatformData w group) (x, y) =
        lookupPD (generatePlatformData 1 group) (0, y)) := by
  refine ⟨?_, ?_, ?_, ?_⟩
  · intro group w hw
    unfold generatePlatformDataZ
    rw [if_pos hw]
  · intro h x
    exact addColumn_nil h x
  · intro group w hw hleft y
    rw [lookupPD_generatePlatformData w group (0, y) hw, if_pos rfl, hleft,
      addColumn_nil, lookupPD_nil]
  · intro group w x hmid hw hx1 hx2 y
    have hxne0 : ¬ (x = 0) := by omega
    have hxner : ¬ (x = w - 1) := by omega
    have hmcol : middleColOf group x = group.single := by
      unfold middleColOf
      rw [hmid]
      simp
    have h1 : generatePlatformData 1 group =
        addColumn (hEff group) 0 group.single := by
      unfold generatePlatformData
      rw [if_neg (by omega), if_pos rfl]
    rw [lookupPD_generatePlatformData w group (x, y) (by omega), if_neg hxne0,
      if_neg hxner, if_pos (by omega : 1 ≤ x ∧ x ≤ w - 2), hmcol, h1,
      lookupPD_addColumn_full, lookupPD_addColumn_full]
    by_cases hy : y < hEff group
    · rw [if_pos ⟨rfl, hy⟩, if_pos ⟨rfl, hy⟩]
    · rw [if_neg (by omega), if_neg (by omega)]

/-- Witness for C8: middle column 1 of a width-4 expansion of a group with
`middle = []` matches its width-1 (`single`) expansion. -/
theorem pattern_degenerate_total_witness :
    (exampleNoMiddleGroup.middle = [] ∧ (3 : ℕ) ≤ 4 ∧ (1 : ℕ) ≤ 1 ∧ (1 : ℕ) ≤ 4 - 2) ∧
    lookupPD (generatePlatformData 4 exampleNoMiddleGroup) (1, 0) =
      lookupPD (generatePlatformData 1 exampleNoMiddleGroup) (0, 0) :=
  ⟨⟨by decide, by decide, by decide, by decide⟩,
   pattern_degenerate_total.2.2.2 exampleNoMiddleGroup 4 1
     (by decide) (by decide) (by decide) (by decide) 0⟩

/-! ## Brush stamping (`handleMapInteraction` brush branch with `paintTile`, part_002)

The brush branch iterates `customBrush.data`, mirrors `dx` when the editor
is flipped, skips targets past the right/bottom map edge
(`targetX >= pixelWidth || targetY >= pixelHeight`, which in tile units is
`gx + finalDx >= mapW || gy + dy >= mapH` since all pixel quantities are
the tile quantities scaled by the positive `gridSize`), and writes the
tile with `flipX = sourceFlipX XOR isFlipped` via `paintTile`.
-/

/-- `CustomBrush` from `types.ts`; `data` is the sparse `"dx,dy"` record in
iteration order. -/
structure CustomBrush where
  width : ℕ
  height : ℕ
  data : List ((ℕ × ℕ) × TileData)

/-- The target cell of one brush entry:
`(gridX + finalDx, gridY + dy)` with `finalDx = isFlipped ? width-1-dx : dx`. -/
def brushTarget (w : ℕ) (isFlipped : Bool) (gx gy : ℕ) (k : ℕ × ℕ) : Cell :=
  ((gx : ℤ) + (if isFlipped then (w : ℤ) - 1 - (k.1 : ℤ) else (k.1 : ℤ)),
   (gy : ℤ) + (k.2 : ℤ))

/-- One brush stroke of `handleMapInteraction`: write every entry of the
brush whose (mirrored) target lies inside the right/bottom map edge, with
XOR-combined flip; entries past the edge are skipped. -/
def stampBrush (mapW mapH : ℕ) (brush : CustomBrush) (gx gy : ℕ)
    (isFlipped : Bool) (layer : Grid) : Grid :=
  brush.data.foldl
    (fun acc e =>
      let t := brushTarget brush.width isFlipped gx gy e.1
      if (mapW : ℤ) ≤ t.1 ∨ (mapH : ℤ) ≤ t.2 then acc
      else updateG acc t ⟨e.2.tileId, e.2.flipX != isFlipped⟩)
    layer

lemma brushTarget_inj (w : ℕ) (f : Bool) (gx gy : ℕ) {k1 k2 : ℕ × ℕ}
    (h : brushTarget w f gx gy k1 = brushTarget w f gx gy k2) : k1 = k2 := by
  obtain ⟨d1, e1⟩ := k1
  obtain ⟨d2, e2⟩ := k2
  rw [brushTarget, brushTarget, Prod.ext_iff] at h
  obtain ⟨h1, h2⟩ := h
  simp only at h1 h2
  cases f <;> simp only [if_true, if_false, Bool.false_eq_true] at h1 <;>
    · rw [Prod.ext_iff]
      constructor <;> simp_all

/-- Cells past the right/bottom edge are never written by a stamp. -/
lemma stampFold_oob (mapW mapH : ℕ) (w : ℕ) (f : Bool) (gx gy : ℕ) (c : Cell)
    (hc : (mapW : ℤ) ≤ c.1 ∨ (mapH : ℤ) ≤ c.2) :
    ∀ (l : List ((ℕ × ℕ) × TileData)) (acc : Grid),
      l.foldl
        (fun acc e =>
          let t := brushTarget w f gx gy e.1
          if (mapW : ℤ) ≤ t.1 ∨ (mapH : ℤ) ≤ t.2 then acc
          else updateG acc t ⟨e.2.tileId, e.2.flipX != f⟩) acc c = acc c := by
  intro l
  induction l with
  | nil => intro acc; rfl
  | cons e rest ih =>
    intro acc
    rw [List.foldl_cons, ih]
    by_cases ht : (mapW : ℤ) ≤ (brushTarget w f gx gy e.1).1 ∨
        (mapH : ℤ) ≤ (brushTarget w f gx gy e.1).2
    · simp only [if_pos ht]
    · simp only [if_neg ht]
      rw [updateG]
      rw [if_neg]
      intro he
      rw [he] at hc
      exact ht hc

/-- Cells targeted by no brush entry are never written by a stamp. -/
lemma stampFold_untargeted (mapW mapH : ℕ) (w : ℕ) (f : Bool) (gx gy : ℕ) (c : Cell) :
    ∀ (l : List ((ℕ × ℕ) × TileData)) (acc : Grid),
      (∀ e ∈ l, brushTarget w f gx gy e.1 ≠ c) →
      l.foldl
        (fun acc e =>
          let t := brushTarget w f gx gy e.1
          if (mapW : ℤ) ≤ t.1 ∨ (mapH : ℤ) ≤ t.2 then acc
          else updateG acc t ⟨e.2.tileId, e.2.flipX != f⟩) acc c = acc c := by
  intro l
  induction l with
  | nil => intro acc _; rfl
  | cons e rest ih =>
    intro acc hne
    rw [List.foldl_cons, ih _ (fun e' he' => hne e' (List.mem_cons_of_mem _ he'))]
    by_cases ht : (mapW : ℤ) ≤ (brushTarget w f gx gy e.1).1 ∨
        (mapH : ℤ) ≤ (brushTarget w f gx gy e.1).2
    · simp only [if_pos ht]
    · simp only [if_neg ht]
      rw [updateG, if_neg]
      intro he
      exact hne e (List.mem_cons_self e rest) he.symm

/-- An in-edge entry of a brush with distinct keys is written to its
mirrored target with XOR-combined flip. -/
lemma stampFold_writes (mapW mapH w : ℕ) (f : Bool) (gx gy : ℕ) :
    ∀ (l : List ((ℕ × ℕ) × TileData)) (acc : Grid) (e : (ℕ × ℕ) × TileData),
      e ∈ l → (l.map Prod.fst).Nodup →
      (brushTarget w f gx gy e.1).1 < (mapW : ℤ) →
      (brushTarget w f gx gy e.1).2 < (mapH : ℤ) →
      l.foldl
        (fun acc e =>
          let t := brushTarget w f gx gy e.1
          if (mapW : ℤ) ≤ t.1 ∨ (mapH : ℤ) ≤ t.2 then acc
          else updateG acc t ⟨e.2.tileId, e.2.flipX != f⟩) acc
        (brushTarget w f gx gy e.1) = some ⟨e.2.tileId, e.2.flipX != f⟩ := by
  intro l
  induction l with
  | nil => intro acc e he; cases he
  | cons e0 rest ih =>
    intro acc e he hnd hx hy
    rw [List.map_cons, List.nodup_cons] at hnd
    rcases List.mem_cons.mp he with he0 | hrest
    · subst he0
      rw [List.foldl_cons, stampFold_untargeted]
      · show (if _ ∨ _ then acc else updateG acc _ _) _ = _
        rw [if_neg (by push_neg; exact ⟨hx, hy⟩), updateG, if_pos rfl]
      · intro e' he' hcontr
        have hk : e'.1 = e.1 := brushTarget_inj _ _ _ _ hcontr
        exact hnd.1 (hk ▸ List.mem_map_of_mem Prod.fst he')
    · rw [List.foldl_cons]
      exact ih _ e hrest hnd.2 hx hy

/-- The 2×1 brush of the spec's scenario:
`{ "0,0": {tileId:4, flipX:false}, "1,0": {tileId:4, flipX:true} }`. -/
def exampleBrush : CustomBrush :=
  { width := 2, height := 1,
    data := [((0, 0), ⟨4, false⟩), ((1, 0), ⟨4, true⟩)] }

/-- **C5 counterexample.** On a 1×1 map, stamping the spec's 2×1 brush at
`(0,0)` with `isFlipped = true` does NOT write cell `(1,0)` (the claim, as
stated, demands `(1,0) ↦ {4, flipX:true}` for every target cell): the
mirrored target of entry `(0,0)` falls on the map edge
(`targetX >= pixelWidth`) and is skipped. -/
theorem stamp_brush_unconditional_write_cex :
    stampBrush 1 1 exampleBrush 0 0 true emptyGrid ((1 : ℤ), (0 : ℤ)) = none ∧
    stampBrush 1 1 exampleBrush 0 0 true emptyGrid ((1 : ℤ), (0 : ℤ)) ≠
      some ⟨4, true⟩ := by
  constructor <;> decide

/-- **C5 (amended).** A stamp paint writes each entry `(dx,dy) ↦ t` of the
brush to `(gx + mirroredDx, gy + dy)` with tile id `t.tileId` and
`flipX = t.flipX XOR isFlipped`, **provided that target lies inside the
right/bottom map edge**; entries whose target falls outside are skipped
and the targeted cell keeps its prior content, as does every cell no entry
targets.  The spec's concrete 2×1 scenario holds on a map at least 2 tiles
wide: target cells `(1,0) ↦ {4,true}` and `(0,0) ↦ {4,false}`. -/
theorem stamp_brush_mirror_xor (mapW mapH : ℕ) (brush : CustomBrush) (gx gy : ℕ)
    (f : Bool) (layer : Grid) (hnd : (brush.data.map Prod.fst).Nodup) :
    (∀ e ∈ brush.data,
      (brushTarget brush.width f gx gy e.1).1 < (mapW : ℤ) →
      (brushTarget brush.width f gx gy e.1).2 < (mapH : ℤ) →
      stampBrush mapW mapH brush gx gy f layer (brushTarget brush.width f gx gy e.1) =
        some ⟨e.2.tileId, e.2.flipX != f⟩) ∧
    (∀ e ∈ brush.data,
      ((mapW : ℤ) ≤ (brushTarget brush.width f gx gy e.1).1 ∨
       (mapH : ℤ) ≤ (brushTarget brush.width f gx gy e.1).2) →
      stampBrush mapW mapH brush gx gy f layer (brushTarget brush.width f gx gy e.1) =
        layer (brushTarget brush.width f gx gy e.1)) ∧
    (∀ c : Cell, (∀ e ∈ brush.data, brushTarget brush.width f gx gy e.1 ≠ c) →
      stampBrush mapW mapH brush gx gy f layer c = layer c) ∧
    (stampBrush 2 1 exampleBrush 0 0 true emptyGrid ((1 : ℤ), (0 : ℤ)) =
        some ⟨4, true⟩ ∧
     stampBrush 2 1 exampleBrush 0 0 true emptyGrid ((0 : ℤ), (0 : ℤ)) =
        some ⟨4, false⟩) := by
  refine ⟨?_, ?_, ?_, by decide, by decide⟩
  · -- an in-bounds entry is written with mirrored position and XOR flip
    intro e he hx hy
    exact stampFold_writes mapW mapH brush.width f gx gy brush.data layer e he hnd hx hy
  · intro e _ hoob
    exact stampFold_oob mapW mapH brush.width f gx gy _ hoob brush.data layer
  · intro c hc
    exact stampFold_untargeted mapW mapH brush.width f gx gy c brush.data layer hc

/-- Witness for the amended C5: the concrete scenario with the Nodup-keys
hypothesis discharged on the concrete brush. -/
theorem stamp_brush_mirror_xor_witness :
    (exampleBrush.data.map Prod.fst).Nodup ∧
    (stampBrush 2 1 exampleBrush 0 0 true emptyGrid ((1 : ℤ), (0 : ℤ)) =
        some ⟨4, true⟩ ∧
     stampBrush 2 1 exampleBrush 0 0 true emptyGrid ((0 : ℤ), (0 : ℤ)) =
        some ⟨4, false⟩) :=
  ⟨by decide,
   (stamp_brush_mirror_xor 2 1 exampleBrush 0 0 true emptyGrid (by decide)).2.2.2⟩

/-! ## History manager and layer list (`useMapState`, part_010)

`historyPast` / `historyFuture` are JS arrays used as stacks: `push` and
`pop` act on the END of the array and `shift` evicts the FRONT (oldest
entry).  The lists below are kept top-first, so `push` is cons, `pop` is
head, and the overflow `shift` drops the last list element.
-/

/-- `Layer` from `types.ts`; `opacity` (a JS number in `[0,1]`) is carried
as an exact rational. -/
structure Layer where
  id : String
  name : String
  visible : Bool
  opacity : ℚ
  data : Grid

/-- The state seen by the history manager: the two stack refs and the live
`layers` array. -/
structure HistoryState where
  past : List (List Layer)
  future : List (List Layer)
  layers : List Layer

/-- `saveCheckpoint`: push a snapshot of the current layers
(`historyPast.current.push(layers)`), evict the oldest entry when the
stack exceeds 50 (`if (length > 50) shift()`), and clear the redo stack
(`historyFuture.current = []`). -/
def saveCheckpoint (st : HistoryState) : HistoryState :=
  let pushed := st.layers :: st.past
  { past := if 50 < pushed.length then pushed.dropLast else pushed,
    future := [],
    layers := st.layers }

/-- `performUndo`: no-op when `past` is empty; otherwise pop it, push the
current (pre-undo) layers onto `future`, and restore the popped snapshot. -/
def performUndo (st : HistoryState) : HistoryState :=
  match st.past with
  | [] => st
  | previous :: rest =>
    { past := rest, future := st.layers :: st.future, layers := previous }

/-- `performRedo`: the mirror operation on `future` (note that, as in the
source, the push onto `past` here carries no 50-cap check). -/
def performRedo (st : HistoryState) : HistoryState :=
  match st.future with
  | [] => st
  | next :: rest =>
    { past := st.layers :: st.past, future := rest, layers := next }

/-- `removeLayer(index)`: rejected (`if (layers.length <= 1) return`) when
only one layer remains — leaving layers and both stacks untouched —
otherwise checkpoint and `splice(index, 1)` (`List.eraseIdx`, which like
JS `splice` removes nothing for an out-of-range index). -/
def removeLayer (index : ℕ) (st : HistoryState) : HistoryState :=
  if st.layers.length ≤ 1 then st
  else
    let st' := saveCheckpoint st
    { st' with layers := st'.layers.eraseIdx index }

/-- The operations driving the history state machine: `checkpoint`, `undo`,
`redo`, plus an arbitrary stack-free mutation of the live layers (a paint
stroke, fill, paste … applied through `setLayers`). -/
inductive HistOp
  | checkpoint
  | undo
  | redo
  | mutate (newLayers : List Layer)

def applyOp (st : HistoryState) : HistOp → HistoryState
  | .checkpoint => saveCheckpoint st
  | .undo => performUndo st
  | .redo => performRedo st
  | .mutate l => { st with layers := l }

/-- The empty history: both stack refs start as `[]`. -/
def initialHistory (l : List Layer) : HistoryState := ⟨[], [], l⟩

def runOps (st : HistoryState) (ops : List HistOp) : HistoryState :=
  ops.foldl applyOp st

/-- The inductive invariant: the two stacks together never hold more than
50 snapshots (checkpoint caps and clears, undo/redo shuttle one snapshot
between the stacks). -/
lemma history_sum_le (ops : List HistOp) :
    ∀ st : HistoryState, st.past.length + st.future.length ≤ 50 →
      (runOps st ops).past.length + (runOps st ops).future.length ≤ 50 := by
  induction ops with
  | nil => intro st h; exact h
  | cons op rest ih =>
    intro st h
    rw [runOps, List.foldl_cons]
    apply ih
    cases op with
    | checkpoint =>
      simp only [applyOp, saveCheckpoint]
      by_cases hl : 50 < (st.layers :: st.past).length
      · rw [if_pos hl]
        simp only [List.length_dropLast, List.length_cons, List.length_nil]
        omega
      · rw [if_neg hl]
        simp only [List.length_cons, List.length_nil] at hl ⊢
        omega
    | undo =>
      cases hp : st.past with
      | nil => simpa [applyOp, performUndo, hp] using h
      | cons p rest' =>
        simp only [applyOp, performUndo, hp, List.length_cons]
        rw [hp] at h
        simp only [List.length_cons] at h
        omega
    | redo =>
      cases hf : st.future with
      | nil => simpa [applyOp, performRedo, hf] using h
      | cons n rest' =>
        simp only [applyOp, performRedo, hf, List.length_cons]
        rw [hf] at h
        simp only [List.length_cons] at h
        omega
    | mutate l => simpa [applyOp] using h

/-- **C2.** Starting from empty history, after every finite sequence of
checkpoint, undo, redo (and stack-free mutation) operations, the past and
future stacks each hold at most 50 snapshots; and a checkpoint taken while
the past stack already holds 50 entries keeps the new snapshot on top and
evicts exactly the bottom (oldest) entry. -/
theorem history_stacks_bounded :
    (∀ (l : List Layer) (ops : List HistOp),
      (runOps (initialHistory l) ops).past.length ≤ 50 ∧
      (runOps (initialHistory l) ops).future.length ≤ 50) ∧
    (∀ st : HistoryState, st.past.length = 50 →
      (saveCheckpoint st).past = st.layers :: st.past.dropLast ∧
      (saveCheckpoint st).past.length = 50) := by
  constructor
  · intro l ops
    have h := history_sum_le ops (initialHistory l) (by simp [initialHistory])
    omega
  · intro st h50
    have hne : st.past ≠ [] := by
      intro hn; rw [hn] at h50; simp at h50
    constructor
    · simp only [saveCheckpoint]
      rw [if_pos (by simp only [List.length_cons]; omega)]
      exact List.dropLast_cons_of_ne_nil hne
    · simp only [saveCheckpoint]
      rw [if_pos (by simp only [List.length_cons]; omega)]
      simp only [List.length_dropLast, List.length_cons]
      omega

/-- A concrete history whose past stack holds exactly 50 snapshots. -/
def fiftyState : HistoryState := ⟨List.replicate 50 [], [], []⟩

/-- Witness for C2: checkpointing on a full 50-entry past stack. -/
theorem history_stacks_bounded_witness :
    fiftyState.past.length = 50 ∧
    ((saveCheckpoint fiftyState).past =
        fiftyState.layers :: fiftyState.past.dropLast ∧
      (saveCheckpoint fiftyState).past.length = 50) :=
  ⟨rfl, history_stacks_bounded.2 fiftyState rfl⟩

/-- **C3.** For every history state with a non-empty past stack, undo
immediately followed by redo restores the current layer sequence to
exactly the value it had before the undo. -/
theorem undo_redo_restores (st : HistoryState) (h : st.past ≠ []) :
    (performRedo (performUndo st)).layers = st.layers := by
  cases hp : st.past with
  | nil => exact absurd hp h
  | cons p rest => simp [performUndo, performRedo, hp]

/-- Witness for C3: a history holding one snapshot. -/
theorem undo_redo_restores_witness :
    (⟨[[]], [], []⟩ : HistoryState).past ≠ [] ∧
    (performRedo (performUndo ⟨[[]], [], []⟩)).layers =
      (⟨[[]], [], []⟩ : HistoryState).layers :=
  ⟨by simp, undo_redo_restores ⟨[[]], [], []⟩ (by simp)⟩

/-- **C9.** Removing a layer preserves the at-least-one-layer invariant:
with a single remaining layer, `removeLayer` at any index is a no-op that
leaves the layer sequence and the history stacks unchanged; with more
layers it removes exactly the indexed layer. -/
theorem removeLayer_keeps_last_layer (st : HistoryState) (index : ℕ) :
    (st.layers.length = 1 → removeLayer index st = st) ∧
    (2 ≤ st.layers.length → index < st.layers.length →
      (removeLayer index st).layers =
        st.layers.take index ++ st.layers.drop (index + 1)) := by
  constructor
  · intro h1
    unfold removeLayer
    rw [if_pos (by omega)]
  · intro h2 _
    unfold removeLayer
    rw [if_neg (by omega)]
    show (saveCheckpoint st).layers.eraseIdx index = _
    show st.layers.eraseIdx index = _
    exact List.eraseIdx_eq_take_drop_succ _ _

/-- A one-layer and a two-layer editor state. -/
def oneLayerState : HistoryState :=
  ⟨[], [], [{ id := "ground", name := "Ground", visible := true, opacity := 1,
              data := emptyGrid }]⟩

def twoLayerState : HistoryState :=
  ⟨[], [], [{ id := "ground", name := "Ground", visible := true, opacity := 1,
              data := emptyGrid },
            { id := "decor", name := "Decoration", visible := true, opacity := 1,
              data := emptyGrid }]⟩

/-- Witness for C9: the guard on a single layer and an actual removal. -/
theorem removeLayer_keeps_last_layer_witness :
    (oneLayerState.layers.length = 1 ∧ removeLayer 3 oneLayerState = oneLayerState) ∧
    (2 ≤ twoLayerState.layers.length ∧ 0 < twoLayerState.layers.length ∧
      (removeLayer 0 twoLayerState).layers =
        twoLayerState.layers.take 0 ++ twoLayerState.layers.drop 1) :=
  ⟨⟨rfl, (removeLayer_keeps_last_layer oneLayerState 3).1 rfl⟩,
   ⟨by norm_num [twoLayerState], by norm_num [twoLayerState],
    (removeLayer_keeps_last_layer twoLayerState 0).2
      (by norm_num [twoLayerState]) (by norm_num [twoLayerState])⟩⟩

/-! ## Procedural level generator (`generateProceduralLevel`, part_005 / `utils/levelGen.ts`)

`Math.random()` returns a real in `[0,1)`.  Such a value is modelled as an
unnormalised fraction `num/den`; a stream `s : ℕ → Frac` supplies the
successive values and a counter tracks how many have been consumed,
mirroring the source's left-to-right consumption order.  Every operation
the code performs on these values — `Math.floor(r * (a/b))` and
comparisons `r < a/b` — is computed by exact integer arithmetic
(`floorMulDiv`, `fracLt`), which agrees with the source for every
fraction with positive denominator.  The Euclidean-distance rejection
test `Math.sqrt(d2) < minDist` is computed as `d2 < minDist²`, its exact
equivalent for non-negative integers.  The theorems below quantify over
arbitrary streams, which subsumes everything `Math.random` can produce.
-/

/-- A `Math.random()` value represented as the fraction `num/den`,
unnormalised so that all arithmetic on it stays kernel-computable. -/
structure Frac where
  num : ℤ
  den : ℕ
deriving DecidableEq, Repr

/-- `Math.floor(q * (a / b))`, exactly, for `den, b > 0`. -/
def floorMulDiv (q : Frac) (a : ℤ) (b : ℕ) : ℤ :=
  Int.fdiv (q.num * a) ((q.den : ℤ) * (b : ℤ))

/-- `q < a / b`, exactly, for `den, b > 0`. -/
def fracLt (q : Frac) (a : ℤ) (b : ℕ) : Bool :=
  decide (q.num * (b : ℤ) < a * (q.den : ℤ))

abbrev RStream := ℕ → Frac

/-- `group.density || 5` (`undefined` and `0` both fall back to 5). -/
def effDensity (d : Option ℕ) : ℕ :=
  match d with
  | none => 5
  | some n => if n = 0 then 5 else n

/-- The three layer data records built by the generator
(`backgroundLayer`, `collisionLayer`, `mainLayer`), plus two
instrumentation fields recording trace facts the final data alone cannot
show: `overwrote` is set exactly when a terrain-layer write replaces an
already-occupied cell, and `committed` collects, per committed scatter
instance, the background cells it wrote. -/
structure GenState where
  bgData : Grid
  colData : Grid
  mainData : Grid
  overwrote : Bool
  committed : List (List Cell)

/-- Terrain-pass platform placement: each pattern tile is written to the
terrain and collision layers only when its row is inside the map
(`gy >= 0 && gy < height`) and the terrain cell is still empty
(`if (!mainLayer.data[key])` — first-writer-wins). -/
def placePlatform (H : ℕ) (entries : List ((ℕ × ℕ) × TileData)) (cx cy : ℤ)
    (st : GenState) : GenState :=
  entries.foldl
    (fun st e =>
      let gx := cx + (e.1.1 : ℤ)
      let gy := cy + (e.1.2 : ℤ)
      if 0 ≤ gy ∧ gy < (H : ℤ) then
        if (st.mainData (gx, gy)).isNone then
          { st with
            mainData := updateG st.mainData (gx, gy) ⟨e.2.tileId, false⟩,
            colData := updateG st.colData (gx, gy) ⟨0, false⟩ }
        else st
      else st)
    st

/-- The unguarded terrain-layer write used for terrain decorations
(`mainLayer.data[...] = { ...dTile, flipX: shouldFlip }`), instrumented to
record whether it replaced an occupied cell. -/
def writeMainUnchecked (st : GenState) (c : Cell) (t : TileData) : GenState :=
  { st with
    mainData := updateG st.mainData c t,
    overwrote := st.overwrote || (st.mainData c).isSome }

/-- One iteration of the terrain-decoration loop
(`for (let dx = 0; dx < platWidth; dx++)`): pick a random group, roll the
`(density/5)*0.3 = 3*density/50` chance, and when it triggers and the
decoration fits on the platform (`dx + decoW <= platWidth`), stamp it
anchored one row above the platform (`startDecoY = -1`), mirrored when
`canFlip` rolls true — writing terrain cells unconditionally.  (`g0` is
the head of `tdGroups`; the `getD` default is unreachable for genuine
random values, whose group index is always in range.) -/
def decoStep (H : ℕ) (tdGroups : List TileGroup) (g0 : TileGroup) (s : RStream)
    (cx cy : ℤ) (platW : ℤ) (acc : GenState × ℕ) (dx : ℕ) : GenState × ℕ :=
  let st := acc.1
  let k := acc.2
  let gi := (floorMulDiv (s k) (tdGroups.length : ℤ) 1).toNat
  let randomGroup := tdGroups.getD gi g0
  let k := k + 1
  let decoDensity := effDensity randomGroup.density
  let trigger := fracLt (s k) (3 * (decoDensity : ℤ)) 50
  let k := k + 1
  if trigger then
    let decoW : ℤ := (randomGroup.preview.length : ℤ)
    if (dx : ℤ) + decoW ≤ platW then
      let decoData := generatePlatformDataZ decoW randomGroup
      let fk : Bool × ℕ :=
        if randomGroup.canFlip then (fracLt (s k) 1 2, k + 1) else (false, k)
      let st := decoData.foldl
        (fun st e =>
          let finalDdx : ℤ := if fk.1 then decoW - 1 - (e.1.1 : ℤ) else (e.1.1 : ℤ)
          let dgx := cx + (dx : ℤ) + finalDdx
          let dgy := cy + (-1) + (e.1.2 : ℤ)
          if 0 ≤ dgy ∧ dgy < (H : ℤ) then
            writeMainUnchecked st (dgx, dgy) ⟨e.2.tileId, fk.1⟩
          else st)
        st
      (st, fk.2)
    else (st, k)
  else (st, k)

/-- One walker pass for a single terrain group
(`while (currentX < width - 5)`), driven by fuel.  For genuine random
values every iteration advances `currentX` by at least 4
(`platWidth ≥ 3`, `gap ≥ 0`, `minDistant ≥ 1`), so the `width` fuel
supplied below lets the loop reach its exit condition; the invariants
proved about the generator hold for every fuel. -/
def walkerLoop (W H : ℕ) (tg : TileGroup) (tdGroups : List TileGroup) (s : RStream)
    (yMin yMax minD maxD : ℤ) :
    ℕ → GenState → ℤ → ℤ → ℕ → GenState × ℕ
  | 0, st, _, _, k => (st, k)
  | fuel + 1, st, cx, cy, k =>
    if cx < (W : ℤ) - 5 then
      let platW : ℤ := floorMulDiv (s k) 6 1 + 3
      let k := k + 1
      let platformData := generatePlatformDataZ platW tg
      let st := placePlatform H platformData cx cy st
      let stk : GenState × ℕ :=
        match tdGroups with
        | [] => (st, k)
        | g0 :: _ =>
          (List.range platW.toNat).foldl (decoStep H tdGroups g0 s cx cy platW) (st, k)
      let st := stk.1
      let k := stk.2
      let gap := floorMulDiv (s k) (maxD - minD + 1) 1
      let k := k + 1
      let cx' := cx + platW + gap + minD
      let yChange := floorMulDiv (s k) 5 1 - 2
      let k := k + 1
      let cy1 := cy + yChange
      let cy2 := if cy1 < yMin then yMin else cy1
      let cy' := if yMax < cy2 then yMax else cy2
      walkerLoop W H tg tdGroups s yMin yMax minD maxD fuel st cx' cy' k
    else (st, k)

/-- One terrain-group pass: vertical bounds from `verticalAlignments`
(`top`-only restricts to the upper half, `bottom`-only to the lower half,
both-or-neither keeps the 4-tile margins; an empty alignments array — a
truthy JS value — restricts nothing to either half and keeps the full
range), start Y at the midpoint, density-derived gap bounds
(`minGap = max(1, 7 - ceil(density/1.5))`,
`maxGap = max(minGap+1, 12 - density)`), then the walker from
`currentX = 2`. -/
def terrainPass (W H : ℕ) (tdGroups : List TileGroup) (s : RStream)
    (acc : GenState × ℕ) (tg : TileGroup) : GenState × ℕ :=
  let alignments : List VAlign :=
    match tg.verticalAlignments with
    | some l => l
    | none =>
      match tg.verticalAlignment with
      | some a => [a]
      | none => [VAlign.top, VAlign.bottom]
  let isTop := VAlign.top ∈ alignments
  let isBottom := VAlign.bottom ∈ alignments
  -- Math.floor(height * 0.5) = H / 2 (integer division)
  let yMin : ℤ := if ¬ isTop ∧ isBottom then ((H / 2 : ℕ) : ℤ) else 4
  let yMax : ℤ := if isTop ∧ ¬ isBottom then ((H / 2 : ℕ) : ℤ) else (H : ℤ) - 4
  let currentY : ℤ := Int.fdiv (yMin + yMax) 2
  let density := effDensity tg.density
  -- Math.ceil(density / 1.5) = ceil(2*density/3) = (2*density + 2) / 3 for density ≥ 1
  let minDistant : ℤ := max 1 (7 - (((2 * density + 2) / 3 : ℕ) : ℤ))
  let maxDistant : ℤ := max (minDistant + 1) (12 - (density : ℤ))
  walkerLoop W H tg tdGroups s yMin yMax minDistant maxDistant W acc.1 2 currentY acc.2

/-- `Math.sqrt((cx-icx)² + (cy-icy)²) < minDist`, computed exactly on
squares of the integer coordinates. -/
def tooCloseTo (placed : List Cell) (minDist : ℤ) (c : Cell) : Bool :=
  placed.any fun p =>
    decide ((c.1 - p.1) ^ 2 + (c.2 - p.2) ^ 2 < minDist ^ 2)

/-- The `while (attempts < maxAttempts)` candidate search: draw a
candidate, accept it unless it lies within `minDist` of a previously
placed instance of the same group; after 10 failed draws report failure
(the source's `if (attempts >= maxAttempts) continue`). -/
def findSpot (draw : ℕ → Cell × ℕ) (placed : List Cell) (minDist : ℤ) :
    ℕ → ℕ → Option Cell × ℕ
  | 0, k => (none, k)
  | attemptsLeft + 1, k =>
    let ck := draw k
    if tooCloseTo placed minDist ck.1 then
      findSpot draw placed minDist attemptsLeft ck.2
    else (some ck.1, ck.2)

/-- The all-or-nothing commit of one expanded scatter instance: scan every
cell against existing background and terrain content
(`if (backgroundLayer.data[k]) overlaps = true; if (mainLayer.data[k]) …`);
when none collides write them all and record the instance, otherwise
discard the whole instance.  Returns whether it committed. -/
def scatterCommit (st : GenState) (temp : List (Cell × TileData)) :
    GenState × Bool :=
  let overlaps := temp.any fun p =>
    (st.bgData p.1).isSome || (st.mainData p.1).isSome
  if overlaps then (st, false)
  else
    ({ st with
        bgData := temp.foldl (fun g p => updateG g p.1 p.2) st.bgData,
        committed := st.committed ++ [temp.map Prod.fst] },
      true)

/-- One scatter-pass placement attempt for a decoration group: rejection-
sampled candidate search, instance width (`preview.length` when
`!canResize`, else random in `[2,4]`), pattern expansion with optional
whole-pattern mirroring, and the guarded commit.  Top-set candidates draw
`cy` in the upper half; bottom-set candidates in
`startY + [0, height*0.5 - 2)`. -/
def scatterInstance (W H : ℕ) (deco : TileGroup) (s : RStream) (top : Bool)
    (acc : GenState × ℕ × List Cell) : GenState × ℕ × List Cell :=
  let st := acc.1
  let k := acc.2.1
  let placed := acc.2.2
  let density := effDensity deco.density
  let minDist : ℤ := max 3 (15 - (density : ℤ))
  let draw : ℕ → Cell × ℕ := fun k =>
    let cx := floorMulDiv (s k) ((W : ℤ) - 2) 1
    let cy := if top then floorMulDiv (s (k + 1)) (H : ℤ) 2
      else ((H / 2 : ℕ) : ℤ) + floorMulDiv (s (k + 1)) ((H : ℤ) - 4) 2
    ((cx, cy), k + 2)
  let fk := findSpot draw placed minDist 10 k
  match fk.1 with
  | none => (st, fk.2, placed)
  | some c =>
    let wk : ℤ × ℕ :=
      if ¬ deco.canResize then ((deco.preview.length : ℤ), fk.2)
      else (floorMulDiv (s fk.2) 3 1 + 2, fk.2 + 1)
    let decoW := wk.1
    let decoData := generatePlatformDataZ decoW deco
    let fl : Bool × ℕ :=
      if deco.canFlip then (fracLt (s wk.2) 1 2, wk.2 + 1) else (false, wk.2)
    let temp : List (Cell × TileData) := decoData.map fun e =>
      let finalDx : ℤ := if fl.1 then decoW - 1 - (e.1.1 : ℤ) else (e.1.1 : ℤ)
      ((c.1 + finalDx, c.2 + (e.1.2 : ℤ)), ⟨e.2.tileId, fl.1⟩)
    let r := scatterCommit st temp
    (r.1, fl.2, if r.2 then placed ++ [c] else placed)

/-- The per-group scatter loop: `count` placement attempts sharing one
`placedItems` list; `count = floor(W*H*(density/5)/100) = W*H*density/500`
for the top set and `…/150 = W*H*density/750` for the bottom set. -/
def scatterGroup (W H : ℕ) (s : RStream) (top : Bool)
    (acc : GenState × ℕ) (deco : TileGroup) : GenState × ℕ :=
  let density := effDensity deco.density
  let count : ℕ := if top then W * H * density / 500 else W * H * density / 750
  let r := (List.range count).foldl
    (fun a _ => scatterInstance W H deco s top a) (acc.1, acc.2, ([] : List Cell))
  (r.1, r.2.1)

/-- Membership of a decoration group in the top-aligned scatter set:
`g.verticalAlignments?.includes("top") ||
 (!g.verticalAlignments && (!g.verticalAlignment || g.verticalAlignment === "top"))`. -/
def isTopDeco (g : TileGroup) : Bool :=
  match g.verticalAlignments with
  | some l => decide (VAlign.top ∈ l)
  | none =>
    match g.verticalAlignment with
    | none => true
    | some a => decide (a = VAlign.top)

/-- Membership in the bottom-aligned scatter set:
`g.verticalAlignments?.includes("bottom") || (g.verticalAlignment === "bottom")`. -/
def isBottomDeco (g : TileGroup) : Bool :=
  (match g.verticalAlignments with
   | some l => decide (VAlign.bottom ∈ l)
   | none => false) || decide (g.verticalAlignment = some VAlign.bottom)

/-- `generateProceduralLevel(width, height, allGroups, _tilesPerRow)`
(the last argument is unused by the source).  Groups are supplied in
`Object.values` order; roles are partitioned exactly as in the source;
pass 1 runs one walker per terrain group, pass 2 scatters the top-aligned
then the bottom-aligned decoration sets.  Folding over an empty group
list is the source's skipped `if (… .length > 0)` branch. -/
def generateProceduralLevel (W H : ℕ) (allGroups : List TileGroup)
    (s : RStream) : GenState :=
  let st0 : GenState := ⟨emptyGrid, emptyGrid, emptyGrid, false, []⟩
  let terrainGroups := allGroups.filter fun g => g.role == Role.terrain
  let decoGroups := allGroups.filter fun g => g.role == Role.decoration
  let terrainDecoGroups := allGroups.filter fun g => g.role == Role.terrainDecoration
  let p1 := terrainGroups.foldl (terrainPass W H terrainDecoGroups s) (st0, 0)
  let topDecos := decoGroups.filter isTopDeco
  let bottomDecos := decoGroups.filter isBottomDeco
  let p2 := topDecos.foldl (scatterGroup W H s true) p1
  let p3 := bottomDecos.foldl (scatterGroup W H s false) p2
  p3.1

/-- The `[backgroundLayer, collisionLayer, mainLayer]` sequence the source
returns, assembled from the generator state. -/
def generateProceduralLevelLayers (W H : ℕ) (allGroups : List TileGroup)
    (s : RStream) : List Layer :=
  let st := generateProceduralLevel W H allGroups s
  [{ id := "layer-bg", name := "Background", visible := true, opacity := 1,
     data := st.bgData },
   { id := "layer-collision", name := "Collision", visible := true, opacity := 1 / 2,
     data := st.colData },
   { id := "layer-1", name := "Terrain", visible := true, opacity := 1,
     data := st.mainData }]

/-- Generic preservation of a projection along a left fold. -/
lemma foldl_preserve_eq {α β γ : Type _} (proj : α → γ) (f : α → β → α)
    (h : ∀ a b, proj (f a b) = proj a) :
    ∀ (l : List β) (a : α), proj (l.foldl f a) = proj a := by
  intro l
  induction l with
  | nil => intro a; rfl
  | cons x xs ih => intro a; rw [List.foldl_cons, ih, h]

/-- Generic preservation of a predicate along a left fold. -/
lemma foldl_preserve_prop {α β : Type _} (P : α → Prop) (f : α → β → α)
    (h : ∀ a b, P a → P (f a b)) :
    ∀ (l : List β) (a : α), P a → P (l.foldl f a) := by
  intro l
  induction l with
  | nil => intro a ha; exact ha
  | cons x xs ih => intro a ha; rw [List.foldl_cons]; exact ih _ (h a x ha)

lemma placePlatform_overwrote (H : ℕ) (en : List ((ℕ × ℕ) × TileData)) (cx cy : ℤ)
    (st : GenState) : (placePlatform H en cx cy st).overwrote = st.overwrote := by
  apply foldl_preserve_eq GenState.overwrote
  intro a e
  dsimp only
  split
  · split <;> rfl
  · rfl

lemma placePlatform_bg (H : ℕ) (en : List ((ℕ × ℕ) × TileData)) (cx cy : ℤ)
    (st : GenState) : (placePlatform H en cx cy st).bgData = st.bgData := by
  apply foldl_preserve_eq GenState.bgData
  intro a e
  dsimp only
  split
  · split <;> rfl
  · rfl

lemma placePlatform_committed (H : ℕ) (en : List ((ℕ × ℕ) × TileData)) (cx cy : ℤ)
    (st : GenState) : (placePlatform H en cx cy st).committed = st.committed := by
  apply foldl_preserve_eq GenState.committed
  intro a e
  dsimp only
  split
  · split <;> rfl
  · rfl

lemma decoStep_bg (H : ℕ) (td : List TileGroup) (g0 : TileGroup) (s : RStream)
    (cx cy pw : ℤ) (acc : GenState × ℕ) (dx : ℕ) :
    (decoStep H td g0 s cx cy pw acc dx).1.bgData = acc.1.bgData := by
  unfold decoStep
  dsimp only
  split
  · split
    · show ((List.foldl _ acc.1 _), _).1.bgData = acc.1.bgData
      dsimp only
      apply foldl_preserve_eq GenState.bgData
      intro a e
      dsimp only
      split
      · rfl
      · rfl
    · rfl
  · rfl

lemma decoStep_committed (H : ℕ) (td : List TileGroup) (g0 : TileGroup) (s : RStream)
    (cx cy pw : ℤ) (acc : GenState × ℕ) (dx : ℕ) :
    (decoStep H td g0 s cx cy pw acc dx).1.committed = acc.1.committed := by
  unfold decoStep
  dsimp only
  split
  · split
    · show ((List.foldl _ acc.1 _), _).1.committed = acc.1.committed
      dsimp only
      apply foldl_preserve_eq GenState.committed
      intro a e
      dsimp only
      split
      · rfl
      · rfl
    · rfl
  · rfl

lemma decoFold_bg (H : ℕ) (td : List TileGroup) (g0 : TileGroup) (s : RStream)
    (cx cy pw : ℤ) (l : List ℕ) (acc : GenState × ℕ) :
    (l.foldl (decoStep H td g0 s cx cy pw) acc).1.bgData = acc.1.bgData :=
  foldl_preserve_eq (fun a => a.1.bgData) _
    (fun a b => decoStep_bg H td g0 s cx cy pw a b) l acc

lemma decoFold_committed (H : ℕ) (td : List TileGroup) (g0 : TileGroup) (s : RStream)
    (cx cy pw : ℤ) (l : List ℕ) (acc : GenState × ℕ) :
    (l.foldl (decoStep H td g0 s cx cy pw) acc).1.committed = acc.1.committed :=
  foldl_preserve_eq (fun a => a.1.committed) _
    (fun a b => decoStep_committed H td g0 s cx cy pw a b) l acc

lemma walkerLoop_bg (W H : ℕ) (tg : TileGroup) (tdGroups : List TileGroup)
    (s : RStream) (yMin yMax minD maxD : ℤ) :
    ∀ (fuel : ℕ) (st : GenState) (cx cy : ℤ) (k : ℕ),
      (walkerLoop W H tg tdGroups s yMin yMax minD maxD fuel st cx cy k).1.bgData =
        st.bgData := by
  intro fuel
  induction fuel with
  | zero => intros; rfl
  | succ n ih =>
    intro st cx cy k
    simp only [walkerLoop]
    split
    · rcases tdGroups with _ | ⟨g0, gs⟩
      · rw [ih, placePlatform_bg]
      · rw [ih, decoFold_bg, placePlatform_bg]
    · rfl

lemma walkerLoop_committed (W H : ℕ) (tg : TileGroup) (tdGroups : List TileGroup)
    (s : RStream) (yMin yMax minD maxD : ℤ) :
    ∀ (fuel : ℕ) (st : GenState) (cx cy : ℤ) (k : ℕ),
      (walkerLoop W H tg tdGroups s yMin yMax minD maxD fuel st cx cy k).1.committed =
        st.committed := by
  intro fuel
  induction fuel with
  | zero => intros; rfl
  | succ n ih =>
    intro st cx cy k
    simp only [walkerLoop]
    split
    · rcases tdGroups with _ | ⟨g0, gs⟩
      · rw [ih, placePlatform_committed]
      · rw [ih, decoFold_committed, placePlatform_committed]
    · rfl

lemma walkerLoop_overwrote_noTD (W H : ℕ) (tg : TileGroup) (s : RStream)
    (yMin yMax minD maxD : ℤ) :
    ∀ (fuel : ℕ) (st : GenState) (cx cy : ℤ) (k : ℕ),
      (walkerLoop W H tg [] s yMin yMax minD maxD fuel st cx cy k).1.overwrote =
        st.overwrote := by
  intro fuel
  induction fuel with
  | zero => intros; rfl
  | succ n ih =>
    intro st cx cy k
    simp only [walkerLoop]
    split
    · rw [ih, placePlatform_overwrote]
    · rfl

lemma terrainPass_bg (W H : ℕ) (td : List TileGroup) (s : RStream)
    (acc : GenState × ℕ) (tg : TileGroup) :
    (terrainPass W H td s acc tg).1.bgData = acc.1.bgData := by
  unfold terrainPass
  dsimp only
  rw [walkerLoop_bg]

lemma terrainPass_committed (W H : ℕ) (td : List TileGroup) (s : RStream)
    (acc : GenState × ℕ) (tg : TileGroup) :
    (terrainPass W H td s acc tg).1.committed = acc.1.committed := by
  unfold terrainPass
  dsimp only
  rw [walkerLoop_committed]

lemma terrainPass_overwrote_noTD (W H : ℕ) (s : RStream)
    (acc : GenState × ℕ) (tg : TileGroup) :
    (terrainPass W H [] s acc tg).1.overwrote = acc.1.overwrote := by
  unfold terrainPass
  dsimp only
  rw [walkerLoop_overwrote_noTD]

lemma terrainFold_bg (W H : ℕ) (td : List TileGroup) (s : RStream)
    (groups : List TileGroup) (acc : GenState × ℕ) :
    (groups.foldl (terrainPass W H td s) acc).1.bgData = acc.1.bgData :=
  foldl_preserve_eq (fun a => a.1.bgData) _
    (fun a b => terrainPass_bg W H td s a b) groups acc

lemma terrainFold_committed (W H : ℕ) (td : List TileGroup) (s : RStream)
    (groups : List TileGroup) (acc : GenState × ℕ) :
    (groups.foldl (terrainPass W H td s) acc).1.committed = acc.1.committed :=
  foldl_preserve_eq (fun a => a.1.committed) _
    (fun a b => terrainPass_committed W H td s a b) groups acc

lemma terrainFold_overwrote_noTD (W H : ℕ) (s : RStream)
    (groups : List TileGroup) (acc : GenState × ℕ) :
    (groups.foldl (terrainPass W H [] s) acc).1.overwrote = acc.1.overwrote :=
  foldl_preserve_eq (fun a => a.1.overwrote) _
    (fun a b => terrainPass_overwrote_noTD W H s a b) groups acc

lemma scatterCommit_overwrote (st : GenState) (temp : List (Cell × TileData)) :
    (scatterCommit st temp).1.overwrote = st.overwrote := by
  unfold scatterCommit
  dsimp only
  split <;> rfl

lemma scatterInstance_overwrote (W H : ℕ) (deco : TileGroup) (s : RStream)
    (top : Bool) (acc : GenState × ℕ × List Cell) :
    (scatterInstance W H deco s top acc).1.overwrote = acc.1.overwrote := by
  unfold scatterInstance
  dsimp only
  split
  · rfl
  · exact scatterCommit_overwrote _ _

lemma scatterGroup_overwrote (W H : ℕ) (s : RStream) (top : Bool)
    (acc : GenState × ℕ) (deco : TileGroup) :
    (scatterGroup W H s top acc deco).1.overwrote = acc.1.overwrote := by
  unfold scatterGroup
  dsimp only
  exact foldl_preserve_eq (fun a : GenState × ℕ × List Cell => a.1.overwrote) _
    (fun a b => scatterInstance_overwrote W H deco s top a) _ _

lemma scatterGroupsFold_overwrote (W H : ℕ) (s : RStream) (top : Bool)
    (groups : List TileGroup) (acc : GenState × ℕ) :
    (groups.foldl (scatterGroup W H s top) acc).1.overwrote = acc.1.overwrote :=
  foldl_preserve_eq (fun a => a.1.overwrote) _
    (fun a b => scatterGroup_overwrote W H s top a b) groups acc

/-- The all-zero random stream (every `Math.random()` call returns 0). -/
def zeroStream : RStream := fun _ => ⟨0, 1⟩

/-- A plain ground terrain group (the `grass` group of
`INITIAL_TILE_GROUPS`). -/
def grassGroup : TileGroup :=
  { left := [8], middle := [[9]], right := [10], single := [9], height := 1,
    preview := [8, 9, 10], role := .terrain, canResize := true, canFlip := false,
    density := some 5 }

/-- A 1-wide, 2-tall terrain-decoration group at maximum density. -/
def tallDecoGroup : TileGroup :=
  { left := [], middle := [], right := [], single := [7], height := 2,
    preview := [7], role := .terrainDecoration, canResize := false, canFlip := false,
    density := some 10 }

/-- **C6 counterexample.** On an 8×10 map with the all-zero stream, the
walker places a grass platform on row 5 (cells `(2,5)`,`(3,5)`,`(4,5)`)
and then stamps the 2-tall decoration anchored at `startDecoY = -1`: its
bottom tile writes straight into the already-occupied platform cell
`(2,5)`, replacing tile 8 with tile 7 — so the terrain pass does replace
an already-occupied terrain-layer cell, refuting the claim as stated. -/
theorem generator_deco_overwrites_occupied_cex :
    (generateProceduralLevel 8 10 [grassGroup, tallDecoGroup] zeroStream).overwrote
        = true ∧
    (generateProceduralLevel 8 10 [grassGroup, tallDecoGroup] zeroStream).mainData
        ((2 : ℤ), (5 : ℤ)) = some ⟨7, false⟩ := by
  constructor <;> decide

/-- **C6 (amended).** During the terrain pass a platform tile is written
only into an empty cell (first-writer-wins across the per-group walker
passes) — but a terrain-decoration tile is written unconditionally
(guarded only by the vertical bounds check) and may replace occupied
terrain cells.  Consequently, whenever no selected group has the
`terrain-decoration` role, no write of the whole generator ever replaces
an already-occupied terrain-layer cell. -/
theorem generator_platforms_first_writer_wins (W H : ℕ)
    (allGroups : List TileGroup) (s : RStream)
    (h : ∀ g ∈ allGroups, g.role ≠ Role.terrainDecoration) :
    (generateProceduralLevel W H allGroups s).overwrote = false := by
  have htd : allGroups.filter (fun g => g.role == Role.terrainDecoration) = [] := by
    rw [List.filter_eq_nil_iff]
    intro g hg
    simpa using h g hg
  unfold generateProceduralLevel
  dsimp only
  rw [htd, scatterGroupsFold_overwrote, scatterGroupsFold_overwrote,
    terrainFold_overwrote_noTD]

/-- Witness for the amended C6: a terrain-only group list. -/
theorem generator_platforms_first_writer_wins_witness :
    (∀ g ∈ [grassGroup], g.role ≠ Role.terrainDecoration) ∧
    (generateProceduralLevel 8 10 [grassGroup] zeroStream).overwrote = false :=
  ⟨by decide,
   generator_platforms_first_writer_wins 8 10 [grassGroup] zeroStream (by decide)⟩

lemma writeAll_not_target (temp : List (Cell × TileData)) :
    ∀ (g : Grid) (c : Cell), (∀ p ∈ temp, p.1 ≠ c) →
      (temp.foldl (fun g p => updateG g p.1 p.2) g) c = g c := by
  induction temp with
  | nil => intro g c _; rfl
  | cons p rest ih =>
    intro g c h
    rw [List.foldl_cons, ih _ c (fun q hq => h q (List.mem_cons_of_mem _ hq))]
    rw [updateG, if_neg]
    intro he
    exact h p (List.mem_cons_self p rest) he.symm

lemma writeAll_isSome_mono (temp : List (Cell × TileData)) :
    ∀ (g : Grid) (c : Cell), (g c).isSome →
      ((temp.foldl (fun g p => updateG g p.1 p.2) g) c).isSome := by
  induction temp with
  | nil => intro g c h; exact h
  | cons p rest ih =>
    intro g c h
    rw [List.foldl_cons]
    apply ih
    rw [updateG]
    by_cases he : c = p.1
    · rw [if_pos he]; rfl
    · rw [if_neg he]; exact h

lemma writeAll_at_target (temp : List (Cell × TileData)) :
    ∀ (g : Grid) (c : Cell), (∃ p ∈ temp, p.1 = c) →
      ((temp.foldl (fun g p => updateG g p.1 p.2) g) c).isSome := by
  induction temp with
  | nil =>
    intro g c h
    rcases h with ⟨p, hp, _⟩
    cases hp
  | cons p rest ih =>
    intro g c h
    rw [List.foldl_cons]
    rcases h with ⟨q, hq, hqc⟩
    rcases List.mem_cons.mp hq with h1 | h1
    · apply writeAll_isSome_mono
      rw [updateG, if_pos (by rw [← hqc, h1])]
      rfl
    · exact ih _ c ⟨q, h1, hqc⟩

/-- The scatter-pass invariant: every background cell avoids the terrain
layer, every committed instance is fully present in the background, every
background cell comes from some committed instance, and distinct
committed instances never overlap. -/
structure ScatterInv (st : GenState) : Prop where
  bg_main_disjoint : ∀ c : Cell, (st.bgData c).isSome → (st.mainData c).isNone
  committed_in_bg : ∀ inst ∈ st.committed, ∀ c ∈ inst, (st.bgData c).isSome
  bg_from_committed : ∀ c : Cell, (st.bgData c).isSome →
    ∃ inst ∈ st.committed, c ∈ inst
  committed_pairwise : st.committed.Pairwise fun i j => ∀ c ∈ i, c ∉ j

lemma scatterInv_of_empty (st : GenState) (hbg : st.bgData = emptyGrid)
    (hc : st.committed = []) : ScatterInv st := by
  constructor
  · intro c hcell; rw [hbg] at hcell; simp [emptyGrid] at hcell
  · intro inst hinst; rw [hc] at hinst; cases hinst
  · intro c hcell; rw [hbg] at hcell; simp [emptyGrid] at hcell
  · rw [hc]; exact List.Pairwise.nil

lemma scatterCommit_inv (st : GenState) (temp : List (Cell × TileData))
    (h : ScatterInv st) : ScatterInv (scatterCommit st temp).1 := by
  unfold scatterCommit
  dsimp only
  by_cases hov : (temp.any fun p =>
      (st.bgData p.1).isSome || (st.mainData p.1).isSome) = true
  · rw [if_pos hov]; exact h
  · rw [if_neg hov]
    have hclean : ∀ p ∈ temp, st.bgData p.1 = none ∧ st.mainData p.1 = none := by
      intro p hp
      have h1 : ¬ (((st.bgData p.1).isSome || (st.mainData p.1).isSome) = true) := by
        intro hcontra
        exact hov (List.any_eq_true.mpr ⟨p, hp, hcontra⟩)
      rw [Bool.or_eq_true, not_or] at h1
      exact ⟨Option.not_isSome_iff_eq_none.mp h1.1,
        Option.not_isSome_iff_eq_none.mp h1.2⟩
    constructor
    · intro c hcell
      show (st.mainData c).isNone
      by_cases htgt : ∃ p ∈ temp, p.1 = c
      · rcases htgt with ⟨p, hp, hpc⟩
        rw [← hpc, (hclean p hp).2]
        rfl
      · push_neg at htgt
        have heq : (temp.foldl (fun g p => updateG g p.1 p.2) st.bgData) c =
            st.bgData c := writeAll_not_target temp st.bgData c htgt
        rw [show ((⟨temp.foldl (fun g p => updateG g p.1 p.2) st.bgData, st.colData,
            st.mainData, st.overwrote,
            st.committed ++ [temp.map Prod.fst]⟩ : GenState)).bgData =
            temp.foldl (fun g p => updateG g p.1 p.2) st.bgData from rfl] at hcell
        rw [heq] at hcell
        exact h.bg_main_disjoint c hcell
    · intro inst hinst c hc
      rcases List.mem_append.mp hinst with h1 | h1
      · exact writeAll_isSome_mono temp st.bgData c (h.committed_in_bg inst h1 c hc)
      · have h2 : inst = temp.map Prod.fst := List.mem_singleton.mp h1
        rw [h2] at hc
        rcases List.mem_map.mp hc with ⟨p, hp, hpc⟩
        exact writeAll_at_target temp st.bgData c ⟨p, hp, hpc⟩
    · intro c hcell
      by_cases htgt : ∃ p ∈ temp, p.1 = c
      · refine ⟨temp.map Prod.fst,
          List.mem_append.mpr (Or.inr (List.mem_singleton_self _)), ?_⟩
        rcases htgt with ⟨p, hp, hpc⟩
        exact hpc ▸ List.mem_map_of_mem Prod.fst hp
      · push_neg at htgt
        have heq : (temp.foldl (fun g p => updateG g p.1 p.2) st.bgData) c =
            st.bgData c := writeAll_not_target temp st.bgData c htgt
        rw [show ((⟨temp.foldl (fun g p => updateG g p.1 p.2) st.bgData, st.colData,
            st.mainData, st.overwrote,
            st.committed ++ [temp.map Prod.fst]⟩ : GenState)).bgData =
            temp.foldl (fun g p => updateG g p.1 p.2) st.bgData from rfl] at hcell
        rw [heq] at hcell
        rcases h.bg_from_committed c hcell with ⟨inst, hi, hci⟩
        exact ⟨inst, List.mem_append.mpr (Or.inl hi), hci⟩
    · show (st.committed ++ [temp.map Prod.fst]).Pairwise _
      rw [List.pairwise_append]
      refine ⟨h.committed_pairwise, List.pairwise_singleton _ _, ?_⟩
      intro i hi j hj c hci hcj
      have hj' : j = temp.map Prod.fst := List.mem_singleton.mp hj
      rw [hj'] at hcj
      rcases List.mem_map.mp hcj with ⟨p, hp, hpc⟩
      have hbgsome := h.committed_in_bg i hi c hci
      rw [← hpc, (hclean p hp).1] at hbgsome
      cases hbgsome

lemma scatterInstance_inv (W H : ℕ) (deco : TileGroup) (s : RStream) (top : Bool)
    (acc : GenState × ℕ × List Cell) (h : ScatterInv acc.1) :
    ScatterInv (scatterInstance W H deco s top acc).1 := by
  unfold scatterInstance
  dsimp only
  split
  · exact h
  · exact scatterCommit_inv _ _ h

lemma scatterGroup_inv (W H : ℕ) (s : RStream) (top : Bool)
    (acc : GenState × ℕ) (deco : TileGroup) (h : ScatterInv acc.1) :
    ScatterInv (scatterGroup W H s top acc deco).1 := by
  unfold scatterGroup
  dsimp only
  exact foldl_preserve_prop (fun a : GenState × ℕ × List Cell => ScatterInv a.1) _
    (fun a b ha => scatterInstance_inv W H deco s top a ha) _ _ h

lemma scatterGroupsFold_inv (W H : ℕ) (s : RStream) (top : Bool)
    (groups : List TileGroup) (acc : GenState × ℕ) (h : ScatterInv acc.1) :
    ScatterInv ((groups.foldl (scatterGroup W H s top) acc).1) :=
  foldl_preserve_prop (fun a : GenState × ℕ => ScatterInv a.1) _
    (fun a b ha => scatterGroup_inv W H s top a b ha) groups acc h

/-- **C7.** For every generated level: the set of background cells
committed by the scatter pass is disjoint from the terrain layer's cells;
every committed scatter instance is wholly present in the background and
every background cell comes from a committed instance (all-or-nothing
placement, no partial writes); and no two distinct scatter instances
overlap. -/
theorem scatter_pass_disjoint (W H : ℕ) (allGroups : List TileGroup) (s : RStream) :
    (∀ c : Cell,
      ((generateProceduralLevel W H allGroups s).bgData c).isSome →
      ((generateProceduralLevel W H allGroups s).mainData c).isNone) ∧
    (∀ inst ∈ (generateProceduralLevel W H allGroups s).committed,
      ∀ c ∈ inst, ((generateProceduralLevel W H allGroups s).bgData c).isSome) ∧
    (∀ c : Cell,
      ((generateProceduralLevel W H allGroups s).bgData c).isSome →
      ∃ inst ∈ (generateProceduralLevel W H allGroups s).committed, c ∈ inst) ∧
    (generateProceduralLevel W H allGroups s).committed.Pairwise
      (fun i j => ∀ c ∈ i, c ∉ j) := by
  have hinv : ScatterInv (generateProceduralLevel W H allGroups s) := by
    unfold generateProceduralLevel
    dsimp only
    apply scatterGroupsFold_inv
    apply scatterGroupsFold_inv
    apply scatterInv_of_empty
    · rw [terrainFold_bg]
    · rw [terrainFold_committed]
  exact ⟨hinv.bg_main_disjoint, hinv.committed_in_bg, hinv.bg_from_committed,
    hinv.committed_pairwise⟩

end MapEditor
